import Mathlib

/-!
# controller-grpc: resource names, entity conversion and the deployment stream

A shallow embedding of `controller-grpc/controller.go`.

* Go strings are Lean `String`s; `strings.Split(s, "/")`, `path.Join` and
  `fmt.Sprintf` are modelled on the character lists.
* Go maps with string keys are association lists with pairwise distinct keys
  (`GoMap`): `m[k] = v` is `GoMap.set`, `m[k]` is `GoMap.index`.
* A pointer that may be nil (`*time.Time`, `*tspb.Timestamp`) is an `Option`.
* The backend client, the event channel and the outbound stream of
  `CreateDeployment` are an explicit script (`Backend`); the handler returns the
  sequence of calls it makes together with its result.
* The request/response handlers take the backend client as a record of replies
  (`Client`) and return their backend calls together with their result (`RpcRun`).
* A `make` followed by `for i, x := range src` that assigns `dst[i]` is `List.map`.
-/

namespace Flynn

/-! ## Go maps keyed by strings -/

/-- A Go `map[string]β`: an association list; keys are pairwise distinct in every
map built from the empty map with `set`. -/
abbrev GoMap (β : Type) := List (String × β)

namespace GoMap

/-- The two-valued lookup `v, ok := m[k]`. -/
def find? {β : Type} (m : GoMap β) (k : String) : Option β :=
  match m with
  | [] => none
  | (k', v) :: rest => if k' = k then some v else find? rest k

/-- The assignment `m[k] = v`: replaces the entry of `k` if there is one, adds one otherwise. -/
def set {β : Type} (m : GoMap β) (k : String) (v : β) : GoMap β :=
  match m with
  | [] => [(k, v)]
  | (k', v') :: rest => if k' = k then (k, v) :: rest else (k', v') :: set rest k v

/-- The one-valued lookup `m[k]` on a `map[string]string`: the zero value `""` for a missing key. -/
def index (m : GoMap String) (k : String) : String := (find? m k).getD ""

/-- The keys of the map. -/
def keys {β : Type} (m : GoMap β) : List String := m.map Prod.fst

end GoMap

/-! ## Strings: `strings.Split`, joining, `path.Clean`, `path.Join` -/

/-- Go `strings.Split(s, "/")`: the substrings between the slashes; one more token
than there are slashes, so `[""]` for the empty string. -/
def stringsSplit (s : String) : List String :=
  (s.data.splitOn '/').map String.mk

/-- The strings `xs` written one after the other with a `/` between neighbours
(`strings.Join(xs, "/")`). -/
def slashJoin (xs : List String) : String :=
  String.mk (List.intercalate ['/'] (xs.map String.data))

/-- One path element processed by Go `path.Clean`; `stack` holds the elements kept so
far, last one first. Empty and `.` elements are dropped, `..` removes the last kept
element when that is not itself `..`, is kept on a path that is not rooted, and is
dropped at the root. -/
def cleanStep (rooted : Bool) (stack : List String) (el : String) : List String :=
  if el = "" then stack
  else if el = "." then stack
  else if el = ".." then
    match stack with
    | top :: below =>
      if top = ".." then (if rooted then stack else ".." :: stack) else below
    | [] => if rooted then [] else [".."]
  else el :: stack

/-- Go `path.Clean`, element by element: the shortest equivalent path; `.` when nothing is left. -/
def pathClean (p : String) : String :=
  if p = "" then "."
  else
    let rooted : Bool := p.data.head? = some '/'
    let stack := (stringsSplit p).foldl (cleanStep rooted) []
    if rooted then "/" ++ slashJoin stack.reverse
    else if stack = [] then "."
    else slashJoin stack.reverse

/-- Go `path.Join`: the non-empty elements joined with `/` and cleaned; `""` when every
element is empty. -/
def pathJoin (elems : List String) : String :=
  let used := elems.filter (fun e => e ≠ "")
  if used = [] then "" else pathClean (slashJoin used)

/-! ## Resource names -/

/-- The loop of `parseResourceName`, `for i := 0; i < len(parts)-1; i += 2`, entered at
index `i` with the map built so far. `fuel` bounds the number of iterations;
`parseLoop_fuel` shows that `len(parts)` iterations are always enough. The two
accesses `parts[i]` and `parts[i+1]` are in range by the loop condition. -/
def parseLoop (parts : List String) : Nat → Nat → GoMap String → GoMap String
  | 0, _, idMap => idMap
  | fuel + 1, i, idMap =>
    if h : (i : Int) < (parts.length : Int) - 1 then
      if i = parts.length then idMap
      else
        have h0 : i < parts.length := by omega
        have h1 : i + 1 < parts.length := by omega
        let resourceName := parts[i]
        let resourceID := parts[i + 1]
        parseLoop parts fuel (i + 2) (idMap.set resourceName resourceID)
    else idMap

/-- `parseResourceName`: split on `/` and pair each even-indexed token with its successor. -/
def parseResourceName (name : String) : GoMap String :=
  let parts := stringsSplit name
  parseLoop parts parts.length 0 []

/-- The tokens of a list of (kind, identifier) pairs, in declaration order. -/
def pairTokens (ps : List (String × String)) : List String :=
  ps.flatMap (fun p => [p.1, p.2])

/-- The Format of the specification: the resource name of a list of (kind, identifier)
pairs, all tokens joined with `/` in declaration order. The handlers have no such function;
`convertRelease` and `convertDeployment` build names of this shape with
`fmt.Sprintf("apps/%s/releases/%s", ...)` (`convertDeployment_names`) and `convertApp` with
`path.Join` (`pathJoin_segments`). -/
def formatResourceName (ps : List (String × String)) : String :=
  slashJoin (pairTokens ps)

/-- A name token: non-empty and without `/`. -/
def IsToken (s : String) : Prop := s ≠ "" ∧ '/' ∉ s.data

instance (s : String) : Decidable (IsToken s) := by
  unfold IsToken; infer_instance

/-- Well-formed pairs: kinds pairwise distinct, every kind and identifier a token. -/
def WellFormedPairs (ps : List (String × String)) : Prop :=
  (ps.map Prod.fst).Nodup ∧ ∀ p ∈ ps, IsToken p.1 ∧ IsToken p.2

instance (ps : List (String × String)) : Decidable (WellFormedPairs ps) := by
  unfold WellFormedPairs; infer_instance

/-- A plain path segment: a token other than `.` and `..`, which `path.Clean` keeps as it is. -/
def IsSegment (s : String) : Prop := IsToken s ∧ s ≠ "." ∧ s ≠ ".."

instance (s : String) : Decidable (IsSegment s) := by
  unfold IsSegment; infer_instance

/-! ## Timestamps -/

/-- A backend `time.Time`, as the instant it denotes: seconds since the Unix epoch and
the nanosecond offset within the second (`0 ≤ nsec < 10^9` for every Go value). The
location is not modelled. -/
structure Time where
  sec : Int
  nsec : Int
deriving DecidableEq, Repr

/-- The wire `google.protobuf.Timestamp`. -/
structure Timestamp where
  Seconds : Int
  Nanos : Int
deriving DecidableEq, Repr

/-- Seconds of 0001-01-01T00:00:00Z, the earliest valid wire timestamp. -/
def minValidSeconds : Int := -62135596800

/-- Seconds of 10000-01-01T00:00:00Z, just after the latest valid wire timestamp. -/
def maxValidSeconds : Int := 253402300800

/-- The check `validateTimestamp` of `ptypes` on a non-nil timestamp. -/
def validTimestamp (ts : Timestamp) : Bool :=
  decide (minValidSeconds ≤ ts.Seconds) && decide (ts.Seconds < maxValidSeconds) &&
    decide (0 ≤ ts.Nanos) && decide (ts.Nanos < 1000000000)

/-- Library `ptypes.TimestampProto` with its error dropped: nil for a time outside the valid range. -/
def ptypesTimestampProto (t : Time) : Option Timestamp :=
  let ts : Timestamp := { Seconds := t.sec, Nanos := t.nsec }
  if validTimestamp ts then some ts else none

/-- Go arithmetic on `int64`: the value modulo `2^64`, read as a signed 64-bit integer. -/
def int64 (v : Int) : Int := (v + 9223372036854775808) % 18446744073709551616 - 9223372036854775808

/-- Go `time.Unix(sec, nsec)`: the nanoseconds are brought into `[0, 10^9)`; the two
adjustments of the seconds, `sec += n` and `sec--`, are `int64` arithmetic and wrap. -/
def timeUnix (sec nsec : Int) : Time :=
  if nsec < 0 ∨ nsec ≥ 1000000000 then
    let n := Int.tdiv nsec 1000000000
    let sec1 := int64 (sec + n)
    let nsec1 := nsec - n * 1000000000
    if nsec1 < 0 then { sec := int64 (sec1 - 1), nsec := nsec1 + 1000000000 }
    else { sec := sec1, nsec := nsec1 }
  else { sec := sec, nsec := nsec }

/-- Library `ptypes.Timestamp` on a non-nil timestamp, with its error dropped. -/
def ptypesTimestamp (ts : Timestamp) : Time := timeUnix ts.Seconds ts.Nanos

/-- `timestampProto`: nil stays nil, otherwise `tp, _ := ptypes.TimestampProto(*t)`. -/
def timestampProto (t : Option Time) : Option Timestamp :=
  match t with
  | none => none
  | some t => ptypesTimestampProto t

/-- `timestampFromProto`: nil stays nil, otherwise the address of `ptypes.Timestamp(t)`. -/
def timestampFromProto (t : Option Timestamp) : Option Time :=
  match t with
  | none => none
  | some ts => some (ptypesTimestamp ts)

/-! ## Applications -/

/-- The backend application `ct.App`. -/
structure CtApp where
  ID : String
  Name : String
  Meta : GoMap String
  Strategy : String
  ReleaseID : String
  DeployTimeout : Int
  CreatedAt : Option Time
  UpdatedAt : Option Time
deriving DecidableEq, Repr

/-- The wire application `App`. -/
structure App where
  Name : String
  DisplayName : String
  Labels : GoMap String
  Strategy : String
  Release : String
  DeployTimeout : Int
  CreateTime : Option Timestamp
  UpdateTime : Option Timestamp
deriving DecidableEq, Repr

/-- `convertApp`: backend application to wire application. -/
def convertApp (a : CtApp) : App :=
  { Name := pathJoin ["apps", a.ID]
    DisplayName := a.Name
    Labels := a.Meta
    Strategy := a.Strategy
    Release := pathJoin ["apps", a.ID, "releases", a.ReleaseID]
    DeployTimeout := a.DeployTimeout
    CreateTime := timestampProto a.CreatedAt
    UpdateTime := timestampProto a.UpdatedAt }

/-- `backConvertApp`: wire application to backend application. -/
def backConvertApp (a : App) : CtApp :=
  { ID := (parseResourceName a.Name).index "apps"
    Name := a.DisplayName
    Meta := a.Labels
    Strategy := a.Strategy
    ReleaseID := (parseResourceName a.Release).index "releases"
    DeployTimeout := a.DeployTimeout
    CreatedAt := timestampFromProto a.CreateTime
    UpdatedAt := timestampFromProto a.UpdateTime }

/-! ## Deployments -/

/-- The wire enum `Deployment_Status`. -/
inductive Deployment_Status where
  | PENDING
  | FAILED
  | RUNNING
  | COMPLETE
deriving DecidableEq, Repr

/-- Go `int32(v)` on an `int`: the value modulo `2^32`, read as a signed 32-bit integer. -/
def int32 (v : Int) : Int := (v + 2147483648) % 4294967296 - 2147483648

/-- The backend deployment `ct.Deployment`. -/
structure CtDeployment where
  ID : String
  AppID : String
  OldReleaseID : String
  NewReleaseID : String
  Strategy : String
  Status : String
  Processes : GoMap Int
  Tags : GoMap (GoMap String)
  DeployTimeout : Int
  CreatedAt : Option Time
  FinishedAt : Option Time
deriving DecidableEq, Repr

/-- The wire message `DeploymentProcessTags`. -/
structure DeploymentProcessTags where
  Tags : GoMap String
deriving DecidableEq, Repr

/-- The wire deployment `Deployment`. -/
structure Deployment where
  Name : String
  OldRelease : String
  NewRelease : String
  Strategy : String
  Status : Deployment_Status
  Processes : GoMap Int
  Tags : GoMap DeploymentProcessTags
  DeployTimeout : Int
  CreateTime : Option Timestamp
  EndTime : Option Timestamp
deriving DecidableEq, Repr

/-- `convertDeploymentTags`: every tag map wrapped in a `DeploymentProcessTags`. -/
def convertDeploymentTags (src : GoMap (GoMap String)) : GoMap DeploymentProcessTags :=
  src.foldl (fun dst kv => dst.set kv.1 { Tags := kv.2 }) []

/-- `convertDeploymentProcesses`: every count narrowed with `int32`. -/
def convertDeploymentProcesses (src : GoMap Int) : GoMap Int :=
  src.foldl (fun dst kv => dst.set kv.1 (int32 kv.2)) []

/-- `convertDeploymentStatus`: the `switch` on the backend status string, with
`Deployment_PENDING` after the switch. -/
def convertDeploymentStatus (src : String) : Deployment_Status :=
  if src = "pending" then Deployment_Status.PENDING
  else if src = "failed" then Deployment_Status.FAILED
  else if src = "running" then Deployment_Status.RUNNING
  else if src = "complete" then Deployment_Status.COMPLETE
  else Deployment_Status.PENDING

/-- `convertDeployment`: backend deployment to wire deployment. -/
def convertDeployment (src : CtDeployment) : Deployment :=
  { Name := "apps/" ++ src.AppID ++ "/deployments/" ++ src.ID
    OldRelease := "apps/" ++ src.AppID ++ "/releases/" ++ src.OldReleaseID
    NewRelease := "apps/" ++ src.AppID ++ "/releases/" ++ src.NewReleaseID
    Strategy := src.Strategy
    Status := convertDeploymentStatus src.Status
    Processes := convertDeploymentProcesses src.Processes
    Tags := convertDeploymentTags src.Tags
    DeployTimeout := src.DeployTimeout
    CreateTime := timestampProto src.CreatedAt
    EndTime := timestampProto src.FinishedAt }

/-! ## The deployment stream -/

/-- The fields of a backend event `ct.Event` that the handler reads. -/
structure CtEvent where
  ID : Int
  ObjectType : String
  ObjectID : String
deriving DecidableEq, Repr

/-- The wire payload `any.Any`; the serialized bytes are a list of byte values. -/
structure AnyValue where
  TypeUrl : String
  Value : List Nat
deriving DecidableEq, Repr

/-- The wire event `Event`. -/
structure Event where
  Name : String
  Parent : String
  Data : AnyValue
deriving DecidableEq, Repr

/-- The request `CreateDeploymentRequest`. -/
structure CreateDeploymentRequest where
  Parent : String
  Release : String
deriving DecidableEq, Repr

/-- The subscription options `ct.StreamEventsOptions`. -/
structure StreamEventsOptions where
  AppID : String
  ObjectID : String
  ObjectTypes : List String
  Past : Bool
deriving DecidableEq, Repr

/-- One event delivered on the `events` channel, together with what the collaborators
answer while it is handled: the reply of `s.Client.GetDeployment(event.ObjectID)` and the
error returned by `ds.Send` (`none` for success), each used only if the call is made. -/
structure Delivered where
  event : CtEvent
  getDeployment : Except String CtDeployment
  send : Option String

/-- The collaborators of one `CreateDeployment` call: the backend client, the serializer
`proto.Marshal`, the events delivered before the channel is closed, and the errors of
`eventStream.Close()` and `eventStream.Err()` (`none` for nil). -/
structure Backend where
  createDeployment : String → String → Except String CtDeployment
  streamEvents : StreamEventsOptions → Option String
  feed : List Delivered
  marshal : Deployment → Except String (List Nat)
  close : Option String
  err : Option String

/-- A call made by the handler, or a receive on the channel. -/
inductive Call where
  | createDeployment (appID releaseID : String)
  | streamEvents (opts : StreamEventsOptions)
  | receive (e : CtEvent)
  | feedClosed
  | getDeployment (objectID : String)
  | printf (msg : String)
  | send (e : Event)
  | close
  | err
deriving DecidableEq, Repr

/-- What the event loop did: its calls in order and the delivered events it never received. -/
structure LoopRun where
  calls : List Call
  unread : List Delivered

/-- The calls `cs` followed by the run `r`. -/
def LoopRun.after (cs : List Call) (r : LoopRun) : LoopRun :=
  { calls := cs ++ r.calls, unread := r.unread }

/-- The event pushed for backend event `e` and re-fetched deployment `d`. -/
def wireEvent (e : CtEvent) (d : CtDeployment) (serializedDeployment : List Nat) : Event :=
  { Name := "events/" ++ toString e.ID
    Parent := "apps/" ++ d.AppID ++ "/deployments/" ++ d.ID
    Data := { TypeUrl := "apps/" ++ d.AppID ++ "/deployments/" ++ d.ID
              Value := serializedDeployment } }

/-- The `for` loop of `CreateDeployment` over the events still to be delivered. The
error returned by `ds.Send` is not bound to anything, so `send` of the delivered event
does not occur in the body. -/
def eventLoop (marshal : Deployment → Except String (List Nat)) : List Delivered → LoopRun
  | [] => { calls := [Call.feedClosed], unread := [] }
  | ev :: rest =>
    if ev.event.ObjectType ≠ "deployment" then
      (eventLoop marshal rest).after [Call.receive ev.event]
    else
      match ev.getDeployment with
      | Except.error e =>
        (eventLoop marshal rest).after
          [Call.receive ev.event, Call.getDeployment ev.event.ObjectID,
           Call.printf ("Failed to get deployment(" ++ ev.event.ObjectID ++ "): " ++ e ++ "\n")]
      | Except.ok d =>
        match marshal (convertDeployment d) with
        | Except.error e =>
          (eventLoop marshal rest).after
            [Call.receive ev.event, Call.getDeployment ev.event.ObjectID,
             Call.printf ("Failed to serialize deployment deployment(" ++ d.ID ++ "): " ++ e ++ "\n")]
        | Except.ok serializedDeployment =>
          let pushed := [Call.receive ev.event, Call.getDeployment ev.event.ObjectID,
            Call.send (wireEvent ev.event d serializedDeployment)]
          if d.Status = "complete" ∨ d.Status = "failed" then
            { calls := pushed, unread := rest }
          else (eventLoop marshal rest).after pushed

/-- What a `CreateDeployment` call did: its calls in order and the error it returns
(`none` for nil). -/
structure StreamRun where
  calls : List Call
  result : Option String
deriving DecidableEq, Repr

/-- `server.CreateDeployment`. -/
def CreateDeployment (s : Backend) (req : CreateDeploymentRequest) : StreamRun :=
  let appID := (parseResourceName req.Parent).index "apps"
  let releaseID := (parseResourceName req.Release).index "releases"
  match s.createDeployment appID releaseID with
  | Except.error e => { calls := [Call.createDeployment appID releaseID], result := some e }
  | Except.ok d =>
    let opts : StreamEventsOptions :=
      { AppID := d.AppID, ObjectID := d.ID, ObjectTypes := ["deployment"], Past := true }
    let opened := [Call.createDeployment appID releaseID, Call.streamEvents opts]
    match s.streamEvents opts with
    | some e => { calls := opened, result := some e }
    | none =>
      let looped := opened ++ (eventLoop s.marshal s.feed).calls ++ [Call.close]
      match s.close with
      | some e => { calls := looped, result := some e }
      | none => { calls := looped ++ [Call.err], result := s.err }

/-! ## Transport dispatch -/

/-- The two servers a request can be handed to. -/
inductive Served where
  | grpcWeb
  | defaultServeMux
deriving DecidableEq, Repr

/-- The handler function in `main`, given the answer of `wrappedServer.IsGrpcWebRequest`:
the servers whose serve method is called, in order. The `if` has no `return` and no
`else`, so the call of `http.DefaultServeMux.ServeHTTP` follows in both cases. -/
def dispatch (isGrpcWebRequest : Bool) : List Served :=
  let first := if isGrpcWebRequest then [Served.grpcWeb] else []
  first ++ [Served.defaultServeMux]

/-! ## Definitions used to state the properties -/

/-- The consecutive (even-indexed token, following token) pairs of a token list; a
trailing token without a successor is left out. -/
def pairsOf : List String → List (String × String)
  | k :: v :: rest => (k, v) :: pairsOf rest
  | _ => []

/-- The value of the last pair with key `key`, if any. -/
def lookupLast (ps : List (String × String)) (key : String) : Option String :=
  match ps with
  | [] => none
  | (k, v) :: rest =>
    match lookupLast rest key with
    | some w => some w
    | none => if k = key then some v else none

/-- The map after assigning the pairs from left to right. -/
def assignAll (m : GoMap String) (ps : List (String × String)) : GoMap String :=
  ps.foldl (fun acc p => acc.set p.1 p.2) m

/-- A backend timestamp the wire format can carry: absent, or within the years 1 to 9999
with a nanosecond offset in `[0, 10^9)`. -/
def TimeCarried (t : Option Time) : Prop :=
  match t with
  | none => True
  | some x => validTimestamp { Seconds := x.sec, Nanos := x.nsec } = true

instance (t : Option Time) : Decidable (TimeCarried t) := by
  cases t <;> (unfold TimeCarried; infer_instance)

/-- A wire timestamp that is absent or valid (`validateTimestamp` accepts it). -/
def TimestampValid (t : Option Timestamp) : Prop :=
  match t with
  | none => True
  | some x => validTimestamp x = true

instance (t : Option Timestamp) : Decidable (TimestampValid t) := by
  cases t <;> (unfold TimestampValid; infer_instance)

/-- A backend application whose identifiers survive the resource names: the ID is a plain
path segment, the release ID is empty or a plain path segment, and both timestamps can be
carried by the wire format. -/
def AppCarried (a : CtApp) : Prop :=
  IsSegment a.ID ∧ (a.ReleaseID = "" ∨ IsSegment a.ReleaseID) ∧
    TimeCarried a.CreatedAt ∧ TimeCarried a.UpdatedAt

instance (a : CtApp) : Decidable (AppCarried a) := by
  unfold AppCarried; infer_instance

/-- A wire application in canonical form: its name is `apps/id` and its release reference
is `apps/id/releases/rid` for plain path segments `id` and `rid` (or `apps/id/releases`
when `rid` is empty), and both timestamps are absent or valid. -/
def WireAppCanonical (w : App) (id rid : String) : Prop :=
  IsSegment id ∧ (rid = "" ∨ IsSegment rid) ∧
    w.Name = pathJoin ["apps", id] ∧ w.Release = pathJoin ["apps", id, "releases", rid] ∧
    TimestampValid w.CreateTime ∧ TimestampValid w.UpdateTime

instance (w : App) (id rid : String) : Decidable (WireAppCanonical w id rid) := by
  unfold WireAppCanonical; infer_instance

/-- A backend application with a release and a creation time. -/
def sampleApp : CtApp :=
  { ID := "a1"
    Name := "web"
    Meta := [("env", "prod")]
    Strategy := "all-at-once"
    ReleaseID := "r1"
    DeployTimeout := 120
    CreatedAt := some { sec := 1500000000, nsec := 5 }
    UpdatedAt := none }

/-- A backend application whose ID contains a slash. -/
def slashedApp : CtApp :=
  { ID := "a/b"
    Name := "web"
    Meta := []
    Strategy := "all-at-once"
    ReleaseID := "r1"
    DeployTimeout := 120
    CreatedAt := none
    UpdatedAt := none }

/-- A backend application whose ID is the path element `..`. -/
def dotDotApp : CtApp :=
  { ID := ".."
    Name := "web"
    Meta := []
    Strategy := "all-at-once"
    ReleaseID := "r1"
    DeployTimeout := 120
    CreatedAt := none
    UpdatedAt := none }

/-- The wire application `apps/a1` with release `apps/a1/releases/r1`. -/
def sampleWireApp : App :=
  { Name := "apps/a1"
    DisplayName := "web"
    Labels := [("env", "prod")]
    Strategy := "all-at-once"
    Release := "apps/a1/releases/r1"
    DeployTimeout := 120
    CreateTime := some { Seconds := 1500000000, Nanos := 5 }
    UpdateTime := none }

/-- The wire application `apps/a1` with an empty release reference. -/
def unreleasedWireApp : App :=
  { Name := "apps/a1"
    DisplayName := "web"
    Labels := []
    Strategy := "all-at-once"
    Release := ""
    DeployTimeout := 120
    CreateTime := none
    UpdateTime := none }

/-- The calls made while one delivered event is handled, from the receive up to the
`continue` or the status test. -/
def stepCalls (marshal : Deployment → Except String (List Nat)) (ev : Delivered) : List Call :=
  (eventLoop marshal [ev]).calls.filter (fun c => c ≠ Call.feedClosed)

/-- The status of the deployment pushed for a delivered event; `none` when nothing is
pushed for it (wrong object type, failed re-fetch or failed serialization). -/
def pushedStatus (marshal : Deployment → Except String (List Nat)) (ev : Delivered) :
    Option String :=
  if ev.event.ObjectType ≠ "deployment" then none
  else
    match ev.getDeployment with
    | Except.error _ => none
    | Except.ok d =>
      match marshal (convertDeployment d) with
      | Except.error _ => none
      | Except.ok _ => some d.Status

/-- The delivered event is pushed with a re-fetched deployment that is complete or failed. -/
def endsStream (marshal : Deployment → Except String (List Nat)) (ev : Delivered) : Bool :=
  match pushedStatus marshal ev with
  | some st => decide (st = "complete" ∨ st = "failed")
  | none => false

/-- The events received from the channel, in order. -/
def receivedEvents (cs : List Call) : List CtEvent :=
  cs.filterMap (fun c => match c with | Call.receive e => some e | _ => none)

/-- The object IDs re-fetched with `GetDeployment`, in order. -/
def fetchedIDs (cs : List Call) : List String :=
  cs.filterMap (fun c => match c with | Call.getDeployment i => some i | _ => none)

/-- The events pushed to the client, in order. -/
def pushedEvents (cs : List Call) : List Event :=
  cs.filterMap (fun c => match c with | Call.send e => some e | _ => none)

/-- The delivered event with the outcome of its push replaced. -/
def Delivered.withSend (ev : Delivered) (r : Option String) : Delivered :=
  { event := ev.event, getDeployment := ev.getDeployment, send := r }

/-- The backend with the outcome of every push replaced by `f`. -/
def Backend.withSends (s : Backend) (f : Delivered → Option String) : Backend :=
  { createDeployment := s.createDeployment
    streamEvents := s.streamEvents
    feed := s.feed.map (fun ev => ev.withSend (f ev))
    marshal := s.marshal
    close := s.close
    err := s.err }

/-- The deployment `d1` of application `a1` with the given status. -/
def sampleDeployment (status : String) : CtDeployment :=
  { ID := "d1"
    AppID := "a1"
    OldReleaseID := "r0"
    NewReleaseID := "r1"
    Strategy := "all-at-once"
    Status := status
    Processes := [("web", 2)]
    Tags := []
    DeployTimeout := 120
    CreatedAt := none
    FinishedAt := none }

/-- Deployment event number `n`, re-fetched with the given status and pushed successfully. -/
def deliveredOk (n : Int) (status : String) : Delivered :=
  { event := { ID := n, ObjectType := "deployment", ObjectID := "d1" }
    getDeployment := Except.ok (sampleDeployment status)
    send := none }

/-- Deployment event number `n` whose re-fetch fails. -/
def deliveredFetchError (n : Int) : Delivered :=
  { event := { ID := n, ObjectType := "deployment", ObjectID := "d1" }
    getDeployment := Except.error "connection refused"
    send := none }

/-- Deployment event number `n`, re-fetched with the given status, whose push fails. -/
def deliveredSendError (n : Int) (status : String) : Delivered :=
  { event := { ID := n, ObjectType := "deployment", ObjectID := "d1" }
    getDeployment := Except.ok (sampleDeployment status)
    send := some "transport is closing" }

/-- A serializer that always succeeds. -/
def marshalOk (_ : Deployment) : Except String (List Nat) := Except.ok [10]

/-- A serializer that rejects every message. -/
def marshalError (_ : Deployment) : Except String (List Nat) :=
  Except.error "proto: invalid UTF-8 string"

/-- A backend that creates `d1`, opens the subscription and delivers `feed`. -/
def sampleBackend (feed : List Delivered) : Backend :=
  { createDeployment := fun _ _ => Except.ok (sampleDeployment "pending")
    streamEvents := fun _ => none
    feed := feed
    marshal := marshalOk
    close := none
    err := none }

/-- The request to deploy release `r1` of application `a1`. -/
def sampleRequest : CreateDeploymentRequest :=
  { Parent := "apps/a1", Release := "apps/a1/releases/r1" }

/-! ## Process types and releases

Messages and list or map elements that the conversions dereference without a nil test
are values here: the definitions describe the conversions on non-nil messages. The nested
types whose conversions are placeholders (`// TODO`) carry representative fields only;
no conversion reads them. -/

/-- The backend `host.Service`; never read by the conversions. -/
structure BackendService where
  Name : String
  Create : Bool
deriving DecidableEq, Repr

/-- The wire `HostService`; only its zero value `&HostService{}` is ever built. -/
structure HostService where
  Name : String
  Create : Bool
deriving DecidableEq, Repr

/-- The backend `ct.Port`. -/
structure CtPort where
  Port : Int
  Proto : String
  Service : Option BackendService
deriving DecidableEq, Repr

/-- The wire `Port`; `Port` is an `int32`. -/
structure Port where
  Port : Int
  Proto : String
  Service : Option HostService
deriving DecidableEq, Repr

/-- The backend `ct.VolumeReq`; never read by the conversions. -/
structure CtVolumeReq where
  Path : String
  DeleteOnStop : Bool
deriving DecidableEq, Repr

/-- The wire `VolumeReq`; never built with content. -/
structure VolumeReq where
  Path : String
  DeleteOnStop : Bool
deriving DecidableEq, Repr

/-- The wire `HostResourceSpec`; never built with content. -/
structure HostResourceSpec where
  Request : Int
  Limit : Int
deriving DecidableEq, Repr

/-- The backend `resource.Resources`, a map from resource class to request and limit. -/
abbrev BackendResources := GoMap (Int × Int)

/-- The backend `host.Mount`; never read by the conversions. -/
structure BackendMount where
  Location : String
  Target : String
  Writeable : Bool
deriving DecidableEq, Repr

/-- The wire `HostMount`; never built with content. -/
structure HostMount where
  Location : String
  Target : String
  Writeable : Bool
deriving DecidableEq, Repr

/-- The backend `configs.Device`; never read by the conversions. -/
structure BackendDevice where
  Path : String
  Major : Int
  Minor : Int
deriving DecidableEq, Repr

/-- The wire `LibContainerDevice`; never built with content. -/
structure LibContainerDevice where
  Path : String
  Major : Int
  Minor : Int
deriving DecidableEq, Repr

/-- The backend `ct.ProcessType`. -/
structure CtProcessType where
  Args : List String
  Env : GoMap String
  Ports : List CtPort
  Volumes : List CtVolumeReq
  Omni : Bool
  HostNetwork : Bool
  HostPIDNamespace : Bool
  Service : String
  Resurrect : Bool
  Resources : BackendResources
  Mounts : List BackendMount
  LinuxCapabilities : List String
  AllowedDevices : List BackendDevice
  WriteableCgroups : Bool
deriving DecidableEq, Repr

/-- The wire `ProcessType`. -/
structure ProcessType where
  Args : List String
  Env : GoMap String
  Ports : List Port
  Volumes : List VolumeReq
  Omni : Bool
  HostNetwork : Bool
  HostPidNamespace : Bool
  Service : String
  Resurrect : Bool
  Resources : GoMap HostResourceSpec
  Mounts : List HostMount
  LinuxCapabilities : List String
  AllowedDevices : List LibContainerDevice
  WriteableCgroups : Bool
deriving DecidableEq, Repr

/-- `convertService`: a placeholder, the zero `&HostService{}` whatever the input. -/
def convertService (_ : Option BackendService) : Option HostService :=
  some { Name := "", Create := false }

/-- `backConvertService`: a placeholder, the zero `&host.Service{}` whatever the input. -/
def backConvertService (_ : Option HostService) : Option BackendService :=
  some { Name := "", Create := false }

/-- `convertPorts`: element by element, the port number narrowed with `int32`. -/
def convertPorts (src : List CtPort) : List Port :=
  src.map (fun p =>
    { Port := int32 p.Port, Proto := p.Proto, Service := convertService p.Service })

/-- `backConvertPorts`: element by element; `int(p.Port)` widens without change. -/
def backConvertPorts (src : List Port) : List CtPort :=
  src.map (fun p =>
    { Port := p.Port, Proto := p.Proto, Service := backConvertService p.Service })

/-- `convertVolumes`: a placeholder, always the empty list. -/
def convertVolumes (_ : List CtVolumeReq) : List VolumeReq := []

/-- `backConvertVolumes`: a placeholder, always the empty list. -/
def backConvertVolumes (_ : List VolumeReq) : List CtVolumeReq := []

/-- `convertResources`: a placeholder, always the empty map. -/
def convertResources (_ : BackendResources) : GoMap HostResourceSpec := []

/-- `backConvertResources`: a placeholder, always the empty `resource.Resources`. -/
def backConvertResources (_ : GoMap HostResourceSpec) : BackendResources := []

/-- `convertMounts`: a placeholder, always the empty list. -/
def convertMounts (_ : List BackendMount) : List HostMount := []

/-- `backConvertMounts`: a placeholder, always the empty list. -/
def backConvertMounts (_ : List HostMount) : List BackendMount := []

/-- `convertAllowedDevices`: a placeholder, always the empty list. -/
def convertAllowedDevices (_ : List BackendDevice) : List LibContainerDevice := []

/-- `backConvertAllowedDevices`: a placeholder, always the empty list. -/
def backConvertAllowedDevices (_ : List LibContainerDevice) : List BackendDevice := []

/-- The `&ProcessType` literal in the loop body of `convertProcesses`. -/
def convertProcessType (t : CtProcessType) : ProcessType :=
  { Args := t.Args
    Env := t.Env
    Ports := convertPorts t.Ports
    Volumes := convertVolumes t.Volumes
    Omni := t.Omni
    HostNetwork := t.HostNetwork
    HostPidNamespace := t.HostPIDNamespace
    Service := t.Service
    Resurrect := t.Resurrect
    Resources := convertResources t.Resources
    Mounts := convertMounts t.Mounts
    LinuxCapabilities := t.LinuxCapabilities
    AllowedDevices := convertAllowedDevices t.AllowedDevices
    WriteableCgroups := t.WriteableCgroups }

/-- The `ct.ProcessType` literal in the loop body of `backConvertProcesses`. -/
def backConvertProcessType (t : ProcessType) : CtProcessType :=
  { Args := t.Args
    Env := t.Env
    Ports := backConvertPorts t.Ports
    Volumes := backConvertVolumes t.Volumes
    Omni := t.Omni
    HostNetwork := t.HostNetwork
    HostPIDNamespace := t.HostPidNamespace
    Service := t.Service
    Resurrect := t.Resurrect
    Resources := backConvertResources t.Resources
    Mounts := backConvertMounts t.Mounts
    LinuxCapabilities := t.LinuxCapabilities
    AllowedDevices := backConvertAllowedDevices t.AllowedDevices
    WriteableCgroups := t.WriteableCgroups }

/-- `convertProcesses`: `to[k] = &ProcessType{...}` for every entry of the map. -/
def convertProcesses (src : GoMap CtProcessType) : GoMap ProcessType :=
  src.foldl (fun dst kt => dst.set kt.1 (convertProcessType kt.2)) []

/-- `backConvertProcesses`: `to[k] = ct.ProcessType{...}` for every entry of the map. -/
def backConvertProcesses (src : GoMap ProcessType) : GoMap CtProcessType :=
  src.foldl (fun dst kt => dst.set kt.1 (backConvertProcessType kt.2)) []

/-- The backend release `ct.Release`. -/
structure CtRelease where
  ID : String
  AppID : String
  ArtifactIDs : List String
  Env : GoMap String
  Meta : GoMap String
  Processes : GoMap CtProcessType
  CreatedAt : Option Time
deriving DecidableEq, Repr

/-- The wire release `Release`. -/
structure Release where
  Name : String
  Artifacts : List String
  Env : GoMap String
  Labels : GoMap String
  Processes : GoMap ProcessType
  CreateTime : Option Timestamp
deriving DecidableEq, Repr

/-- `convertRelease`: backend release to wire release. -/
def convertRelease (r : CtRelease) : Release :=
  { Name := "apps/" ++ r.AppID ++ "/releases/" ++ r.ID
    Artifacts := r.ArtifactIDs
    Env := r.Env
    Labels := r.Meta
    Processes := convertProcesses r.Processes
    CreateTime := timestampProto r.CreatedAt }

/-- The `&ct.Release` literal of `CreateRelease`, the wire to backend mapping of a
release: `ID`, `AppID` and `CreatedAt` are not set and keep their zero values. -/
def newCtRelease (r : Release) : CtRelease :=
  { ID := ""
    AppID := ""
    ArtifactIDs := r.Artifacts
    Env := r.Env
    Meta := r.Labels
    Processes := backConvertProcesses r.Processes
    CreatedAt := none }

/-! ## The request/response handlers -/

/-- A call on the backend client `s.Client` made by a request/response handler. -/
inductive ClientCall where
  | appList
  | getApp (appID : String)
  | updateApp (app : CtApp)
  | getRelease (releaseID : String)
  | releaseList
  | appReleaseList (appID : String)
  | createRelease (appID : String) (release : CtRelease)
deriving DecidableEq, Repr

/-- The backend client as the request/response handlers use it; `Except.error` is a
non-nil `err`. `updateApp` and `createRelease` receive a pointer: their value is the
application or release found behind that pointer when the call returns. -/
structure Client where
  appList : Except String (List CtApp)
  getApp : String → Except String CtApp
  updateApp : CtApp → Except String CtApp
  getRelease : String → Except String CtRelease
  releaseList : Except String (List CtRelease)
  appReleaseList : String → Except String (List CtRelease)
  createRelease : String → CtRelease → Except String CtRelease

/-- What a request/response handler did: its backend calls in order and what it returns,
`Except.error e` for `return nil, e`. -/
structure RpcRun (α : Type) where
  calls : List ClientCall
  result : Except String α

/-- The response `ListAppsResponse`. -/
structure ListAppsResponse where
  Apps : List App
  NextPageToken : String
deriving DecidableEq, Repr

/-- The request `GetAppRequest`. -/
structure GetAppRequest where
  Name : String
deriving DecidableEq, Repr

/-- The request `UpdateAppRequest`. -/
structure UpdateAppRequest where
  App : App
deriving DecidableEq, Repr

/-- The request `GetReleaseRequest`. -/
structure GetReleaseRequest where
  Name : String
deriving DecidableEq, Repr

/-- The request `ListReleasesRequest`. -/
structure ListReleasesRequest where
  Parent : String
deriving DecidableEq, Repr

/-- The response `ListReleasesResponse`. -/
structure ListReleasesResponse where
  Releases : List Release
deriving DecidableEq, Repr

/-- The request `CreateReleaseRequest`. -/
structure CreateReleaseRequest where
  Parent : String
  Release : Release
deriving DecidableEq, Repr

/-- `server.ListApps`; the request carries nothing that is read. -/
def ListApps (c : Client) : RpcRun ListAppsResponse :=
  match c.appList with
  | Except.error e => { calls := [ClientCall.appList], result := Except.error e }
  | Except.ok ctApps =>
    let apps := ctApps.map convertApp
    { calls := [ClientCall.appList]
      result := Except.ok { Apps := apps, NextPageToken := "" } }

/-- `server.GetApp`. -/
def GetApp (c : Client) (req : GetAppRequest) : RpcRun App :=
  let appID := (parseResourceName req.Name).index "apps"
  match c.getApp appID with
  | Except.error e => { calls := [ClientCall.getApp appID], result := Except.error e }
  | Except.ok ctApp => { calls := [ClientCall.getApp appID], result := Except.ok (convertApp ctApp) }

/-- `server.UpdateApp`. -/
def UpdateApp (c : Client) (req : UpdateAppRequest) : RpcRun App :=
  let ctApp := backConvertApp req.App
  match c.updateApp ctApp with
  | Except.error e => { calls := [ClientCall.updateApp ctApp], result := Except.error e }
  | Except.ok stored =>
    { calls := [ClientCall.updateApp ctApp], result := Except.ok (convertApp stored) }

/-- `server.GetRelease`. -/
def GetRelease (c : Client) (req : GetReleaseRequest) : RpcRun Release :=
  let releaseID := (parseResourceName req.Name).index "releases"
  match c.getRelease releaseID with
  | Except.error e => { calls := [ClientCall.getRelease releaseID], result := Except.error e }
  | Except.ok release =>
    { calls := [ClientCall.getRelease releaseID], result := Except.ok (convertRelease release) }

/-- `server.ListReleases`. -/
def ListReleases (c : Client) (req : ListReleasesRequest) : RpcRun ListReleasesResponse :=
  let appID := (parseResourceName req.Parent).index "apps"
  if appID = "" then
    match c.releaseList with
    | Except.error e => { calls := [ClientCall.releaseList], result := Except.error e }
    | Except.ok ctReleases =>
      { calls := [ClientCall.releaseList]
        result := Except.ok { Releases := ctReleases.map convertRelease } }
  else
    match c.appReleaseList appID with
    | Except.error e =>
      { calls := [ClientCall.appReleaseList appID], result := Except.error e }
    | Except.ok ctReleases =>
      { calls := [ClientCall.appReleaseList appID]
        result := Except.ok { Releases := ctReleases.map convertRelease } }

/-- `server.CreateRelease`. -/
def CreateRelease (c : Client) (req : CreateReleaseRequest) : RpcRun Release :=
  let r := req.Release
  let ctRelease := newCtRelease r
  let appID := (parseResourceName req.Parent).index "apps"
  match c.createRelease appID ctRelease with
  | Except.error e =>
    { calls := [ClientCall.createRelease appID ctRelease], result := Except.error e }
  | Except.ok stored =>
    { calls := [ClientCall.createRelease appID ctRelease]
      result := Except.ok (convertRelease stored) }

/-! ## The loop of `parseResourceName` with checked accesses -/

/-- The `return` statement through which `parseResourceName` leaves. -/
inductive ParseExit where
  | guard
  | final
deriving DecidableEq, Repr

/-- How a run of `parseResourceName` ends: it returns a map through one of its two
`return` statements, an index is out of range (a run-time panic), or the allowed number
of iterations is used up while the loop condition still holds. -/
inductive ParseOutcome where
  | returned (exit : ParseExit) (idMap : GoMap String)
  | indexOutOfRange
  | outOfFuel
deriving DecidableEq, Repr

/-- The loop of `parseResourceName` with every access `parts[i]`, `parts[i+1]` checked
and the `return` taken recorded. -/
def parseLoopChecked (parts : List String) : Nat → Nat → GoMap String → ParseOutcome
  | 0, i, idMap =>
    if (i : Int) < (parts.length : Int) - 1 then ParseOutcome.outOfFuel
    else ParseOutcome.returned ParseExit.final idMap
  | fuel + 1, i, idMap =>
    if (i : Int) < (parts.length : Int) - 1 then
      if i = parts.length then ParseOutcome.returned ParseExit.guard idMap
      else
        match parts[i]?, parts[i + 1]? with
        | some resourceName, some resourceID =>
          parseLoopChecked parts fuel (i + 2) (idMap.set resourceName resourceID)
        | _, _ => ParseOutcome.indexOutOfRange
    else ParseOutcome.returned ParseExit.final idMap

/-- `parseResourceName` run with checked accesses for at most `fuel` iterations. -/
def parseResourceNameChecked (fuel : Nat) (name : String) : ParseOutcome :=
  parseLoopChecked (stringsSplit name) fuel 0 []

/-! ## Further definitions used to state the properties -/

/-- The name under which a delivered event is pushed. -/
def eventName (ev : Delivered) : String := "events/" ++ toString ev.event.ID

/-- The delivered events whose object type is `deployment`. -/
def deploymentEvents (feed : List Delivered) : List Delivered :=
  feed.filter (fun ev => decide (ev.event.ObjectType = "deployment"))

/-- The deployment serialized into the payload pushed for a delivered event; `none` when
nothing is pushed for it. -/
def pushedPayload (marshal : Deployment → Except String (List Nat)) (ev : Delivered) :
    Option Deployment :=
  if ev.event.ObjectType ≠ "deployment" then none
  else
    match ev.getDeployment with
    | Except.error _ => none
    | Except.ok d =>
      match marshal (convertDeployment d) with
      | Except.error _ => none
      | Except.ok _ => some (convertDeployment d)

/-- A number that a signed 32-bit integer holds. -/
def InInt32 (v : Int) : Prop := -2147483648 ≤ v ∧ v < 2147483648

instance (v : Int) : Decidable (InInt32 v) := by
  unfold InInt32; infer_instance

/-- A client every call of which fails with `unavailable`. -/
def failingClient : Client :=
  { appList := Except.error "unavailable"
    getApp := fun _ => Except.error "unavailable"
    updateApp := fun _ => Except.error "unavailable"
    getRelease := fun _ => Except.error "unavailable"
    releaseList := Except.error "unavailable"
    appReleaseList := fun _ => Except.error "unavailable"
    createRelease := fun _ _ => Except.error "unavailable" }

/-- A backend release with two artifacts and one environment variable, nothing else set. -/
def sampleRelease : CtRelease :=
  { ID := ""
    AppID := ""
    ArtifactIDs := ["a1", "a2"]
    Env := [("K", "V")]
    Meta := []
    Processes := []
    CreatedAt := none }

/-- The stored release `r1` of application `a1` with two artifacts. -/
def storedRelease : CtRelease :=
  { ID := "r1"
    AppID := "a1"
    ArtifactIDs := ["a1", "a2"]
    Env := [("K", "V")]
    Meta := []
    Processes := []
    CreatedAt := none }

/-- A client that knows the application `sampleApp` and the release `storedRelease`. -/
def sampleClient : Client :=
  { appList := Except.ok [sampleApp]
    getApp := fun _ => Except.ok sampleApp
    updateApp := fun a => Except.ok a
    getRelease := fun _ => Except.ok storedRelease
    releaseList := Except.ok [storedRelease]
    appReleaseList := fun _ => Except.ok [storedRelease]
    createRelease := fun _ r => Except.ok r }

/-- The two backend process types agree on the fields the conversions carry: `Args`,
`Env`, `Omni`, `HostNetwork`, `HostPIDNamespace`, `Service`, `Resurrect`,
`LinuxCapabilities` and `WriteableCgroups`. -/
def CtProcessType.SameScalars (a b : CtProcessType) : Prop :=
  a.Args = b.Args ∧ a.Env = b.Env ∧ a.Omni = b.Omni ∧ a.HostNetwork = b.HostNetwork ∧
    a.HostPIDNamespace = b.HostPIDNamespace ∧ a.Service = b.Service ∧
    a.Resurrect = b.Resurrect ∧ a.LinuxCapabilities = b.LinuxCapabilities ∧
    a.WriteableCgroups = b.WriteableCgroups

/-- The two wire process types agree on the fields the conversions carry. -/
def ProcessType.SameScalars (a b : ProcessType) : Prop :=
  a.Args = b.Args ∧ a.Env = b.Env ∧ a.Omni = b.Omni ∧ a.HostNetwork = b.HostNetwork ∧
    a.HostPidNamespace = b.HostPidNamespace ∧ a.Service = b.Service ∧
    a.Resurrect = b.Resurrect ∧ a.LinuxCapabilities = b.LinuxCapabilities ∧
    a.WriteableCgroups = b.WriteableCgroups

/-- A backend process type `web` with a port, a volume and a mount. -/
def sampleProcessType : CtProcessType :=
  { Args := ["/bin/web", "--port", "8080"]
    Env := [("MODE", "prod")]
    Ports := [{ Port := 8080, Proto := "tcp", Service := none }]
    Volumes := [{ Path := "/data", DeleteOnStop := true }]
    Omni := false
    HostNetwork := true
    HostPIDNamespace := false
    Service := "web"
    Resurrect := true
    Resources := [("memory", (1024, 2048))]
    Mounts := [{ Location := "/etc/ssl", Target := "/ssl", Writeable := false }]
    LinuxCapabilities := ["CAP_NET_BIND_SERVICE"]
    AllowedDevices := []
    WriteableCgroups := false }

/-- A wire process type `web` with one port. -/
def sampleWireProcessType : ProcessType :=
  { Args := ["/bin/web"]
    Env := [("MODE", "prod")]
    Ports := [{ Port := 8080, Proto := "tcp", Service := none }]
    Volumes := []
    Omni := true
    HostNetwork := false
    HostPidNamespace := false
    Service := "web"
    Resurrect := false
    Resources := []
    Mounts := []
    LinuxCapabilities := []
    AllowedDevices := []
    WriteableCgroups := true }

/-- The `ct.StreamEventsOptions` literal of `CreateDeployment` for the created deployment. -/
def subscriptionOptions (d : CtDeployment) : StreamEventsOptions :=
  { AppID := d.AppID, ObjectID := d.ID, ObjectTypes := ["deployment"], Past := true }

/-- A backend that creates `d1` and then fails to open the subscription. -/
def unsubscribedBackend : Backend :=
  { createDeployment := fun _ _ => Except.ok (sampleDeployment "pending")
    streamEvents := fun _ => some "stream unavailable"
    feed := [deliveredOk 1 "pending"]
    marshal := marshalOk
    close := none
    err := none }

/-! ## Properties -/

theorem GoMap.find?_set {β : Type} (m : GoMap β) (k k' : String) (v : β) :
    (m.set k v).find? k' = if k = k' then some v else m.find? k' := by
  induction m with
  | nil => simp [GoMap.set, GoMap.find?]
  | cons hd tl ih =>
    obtain ⟨a, b⟩ := hd
    by_cases h : a = k
    · subst h
      by_cases h2 : a = k' <;> simp [GoMap.set, GoMap.find?, h2]
    · by_cases h2 : k = k'
      · subst h2
        simp [GoMap.set, GoMap.find?, h, ih]
      · by_cases h3 : a = k'
        · subst h3
          simp [GoMap.set, GoMap.find?, h, h2]
        · simp [GoMap.set, GoMap.find?, h, ih, h2, h3]

theorem find?_assignAll (ps : List (String × String)) (m : GoMap String) (key : String) :
    (assignAll m ps).find? key =
      match lookupLast ps key with
      | some w => some w
      | none => m.find? key := by
  induction ps generalizing m with
  | nil => simp [assignAll, lookupLast]
  | cons hd tl ih =>
    obtain ⟨a, b⟩ := hd
    have e : assignAll m ((a, b) :: tl) = assignAll (m.set a b) tl := rfl
    rw [e, ih, lookupLast]
    cases h : lookupLast tl key with
    | some w => simp
    | none => by_cases h2 : a = key <;> simp [GoMap.find?_set, h2]

theorem pairsOf_drop (parts : List String) (i : Nat) (h : i + 1 < parts.length) :
    pairsOf (parts.drop i) = (parts[i], parts[i + 1]) :: pairsOf (parts.drop (i + 2)) := by
  have h0 : i < parts.length := by omega
  rw [List.drop_eq_getElem_cons h0, List.drop_eq_getElem_cons h]
  rfl

theorem pairsOf_short (l : List String) (h : l.length ≤ 1) : pairsOf l = [] := by
  match l, h with
  | [], _ => rfl
  | [_], _ => rfl
  | _ :: _ :: _, h => simp at h

/-- Enough fuel: with at least `len(parts)` iterations allowed the loop of
`parseResourceName` assigns exactly the pairs of the remaining tokens. -/
theorem parseLoop_fuel (parts : List String) (fuel i : Nat) (m : GoMap String)
    (hf : parts.length ≤ i + 2 * fuel) :
    parseLoop parts fuel i m = assignAll m (pairsOf (parts.drop i)) := by
  induction fuel generalizing i m with
  | zero =>
    have : parts.drop i = [] := by
      apply List.drop_eq_nil_of_le; omega
    simp [parseLoop, this, pairsOf, assignAll]
  | succ n ih =>
    unfold parseLoop
    by_cases h : (i : Int) < (parts.length : Int) - 1
    · have h1 : i + 1 < parts.length := by omega
      have hne : i ≠ parts.length := by omega
      simp only [h, hne, dite_true, if_false]
      rw [ih (i + 2) _ (by omega), pairsOf_drop parts i h1]
      rfl
    · have hs : (parts.drop i).length ≤ 1 := by
        simp only [List.length_drop]; omega
      simp only [h, dite_false]
      rw [pairsOf_short _ hs]
      rfl

theorem parseResourceName_eq (name : String) :
    parseResourceName name = assignAll [] (pairsOf (stringsSplit name)) := by
  unfold parseResourceName
  simp only
  rw [parseLoop_fuel _ _ _ _ (by omega)]
  simp

theorem stringsSplit_slashJoin (xs : List String) (hne : xs ≠ [])
    (hx : ∀ x ∈ xs, '/' ∉ x.data) : stringsSplit (slashJoin xs) = xs := by
  unfold stringsSplit slashJoin
  simp only
  rw [List.splitOn_intercalate]
  · simp [List.map_map, Function.comp_def]
  · intro l hl
    simp only [List.mem_map] at hl
    obtain ⟨x, hxm, rfl⟩ := hl
    exact hx x hxm
  · simpa using hne

theorem pairsOf_pairTokens (ps : List (String × String)) : pairsOf (pairTokens ps) = ps := by
  induction ps with
  | nil => rfl
  | cons hd tl ih =>
    obtain ⟨a, b⟩ := hd
    show pairsOf (a :: b :: pairTokens tl) = (a, b) :: tl
    rw [pairsOf, ih]

theorem lookupLast_eq_none (ps : List (String × String)) (key : String) :
    lookupLast ps key = none ↔ ∀ w, (key, w) ∉ ps := by
  induction ps with
  | nil => simp [lookupLast]
  | cons hd tl ih =>
    obtain ⟨a, b⟩ := hd
    rw [lookupLast]
    cases h : lookupLast tl key with
    | some w =>
      have := mt ih.mpr (by simp [h])
      push_neg at this
      obtain ⟨w', hw'⟩ := this
      simp only [reduceCtorEq, false_iff, not_forall, not_not]
      exact ⟨w', List.mem_cons_of_mem _ hw'⟩
    | none =>
      have hn := ih.mp h
      by_cases hk : a = key
      · subst hk
        simp only [if_true, reduceCtorEq, false_iff, not_forall, not_not]
        exact ⟨b, List.mem_cons_self _ _⟩
      · simp only [hk, if_false, true_iff]
        intro w hw
        rcases List.mem_cons.mp hw with e | e
        · exact hk (by injection e with e1 _; exact e1.symm)
        · exact hn w e

theorem lookupLast_eq_some (ps : List (String × String)) (key val : String) :
    lookupLast ps key = some val ↔
      ∃ i : Nat, ps[i]? = some (key, val) ∧ ∀ j : Nat, i < j → ∀ w : String, ps[j]? ≠ some (key, w) := by
  induction ps with
  | nil => simp [lookupLast]
  | cons hd tl ih =>
    obtain ⟨a, b⟩ := hd
    rw [lookupLast]
    constructor
    · intro h
      cases hl : lookupLast tl key with
      | some w =>
        rw [hl] at h
        simp only [Option.some.injEq] at h
        subst h
        obtain ⟨i, hi, hlater⟩ := ih.mp hl
        refine ⟨i + 1, by simpa using hi, ?_⟩
        intro j hj w'
        obtain ⟨j', rfl⟩ : ∃ j', j = j' + 1 := ⟨j - 1, by omega⟩
        simpa using hlater j' (by omega) w'
      | none =>
        rw [hl] at h
        by_cases hk : a = key
        · subst hk
          simp only [if_true, Option.some.injEq] at h
          subst h
          refine ⟨0, by simp, ?_⟩
          intro j hj w'
          obtain ⟨j', rfl⟩ : ∃ j', j = j' + 1 := ⟨j - 1, by omega⟩
          intro hc
          have hmem : (a, w') ∈ tl := by
            have : tl[j']? = some (a, w') := by simpa using hc
            exact List.getElem?_mem this
          exact (lookupLast_eq_none tl a).mp hl w' hmem
        · simp [hk] at h
    · rintro ⟨i, hi, hlater⟩
      cases i with
      | zero =>
        simp only [List.getElem?_cons_zero, Option.some.injEq, Prod.mk.injEq] at hi
        obtain ⟨rfl, rfl⟩ := hi
        have hn : lookupLast tl a = none := by
          rw [lookupLast_eq_none]
          intro w hw
          obtain ⟨n, hn⟩ := List.getElem?_of_mem hw
          exact hlater (n + 1) (by omega) w (by simpa using hn)
        simp [hn]
      | succ i' =>
        have hs : lookupLast tl key = some val := by
          rw [ih]
          refine ⟨i', by simpa using hi, ?_⟩
          intro j hj w
          simpa using hlater (j + 1) (by omega) w
        simp [hs]

theorem pairsOf_getElem? : ∀ (t : List String) (k : Nat) (a b : String),
    (pairsOf t)[k]? = some (a, b) ↔ t[2 * k]? = some a ∧ t[2 * k + 1]? = some b
  | [], k, a, b => by simp [pairsOf]
  | [x], k, a, b => by simp [pairsOf]
  | x :: y :: rest, 0, a, b => by simp [pairsOf]
  | x :: y :: rest, k + 1, a, b => by
    have e1 : 2 * (k + 1) = 2 * k + 1 + 1 := by ring
    have e2 : 2 * (k + 1) + 1 = (2 * k + 1) + 1 + 1 := by ring
    rw [pairsOf, e2, e1]
    simp only [List.getElem?_cons_succ]
    exact pairsOf_getElem? rest k a b

theorem find?_parseResourceName (name key : String) :
    (parseResourceName name).find? key = lookupLast (pairsOf (stringsSplit name)) key := by
  rw [parseResourceName_eq, find?_assignAll]
  cases lookupLast (pairsOf (stringsSplit name)) key <;> simp [GoMap.find?]

theorem GoMap.set_of_not_mem {β : Type} (m : GoMap β) (k : String) (v : β)
    (h : k ∉ m.keys) : m.set k v = m ++ [(k, v)] := by
  induction m with
  | nil => rfl
  | cons hd tl ih =>
    obtain ⟨a, b⟩ := hd
    simp only [GoMap.keys, List.map_cons, List.mem_cons, not_or] at h
    have hne : ¬ a = k := fun e => h.1 e.symm
    simp only [GoMap.set, hne, if_false, List.cons_append]
    rw [ih h.2]

theorem assignAll_nodup (ps : List (String × String)) (m : GoMap String)
    (h : (GoMap.keys (m ++ ps)).Nodup) : assignAll m ps = m ++ ps := by
  induction ps generalizing m with
  | nil => simp [assignAll]
  | cons hd tl ih =>
    obtain ⟨a, b⟩ := hd
    have e : assignAll m ((a, b) :: tl) = assignAll (m.set a b) tl := rfl
    have hk : a ∉ GoMap.keys m := by
      simp only [GoMap.keys, List.map_append, List.map_cons] at h
      have := (List.nodup_append.mp h).2.2
      intro hm
      exact this hm (List.mem_cons_self _ _)
    rw [e, GoMap.set_of_not_mem m a b hk, ih]
    · simp
    · simpa using h

theorem GoMap.find?_eq_some_of_nodup (m : GoMap String) (h : (GoMap.keys m).Nodup)
    (k v : String) : m.find? k = some v ↔ (k, v) ∈ m := by
  induction m with
  | nil => simp [GoMap.find?]
  | cons hd tl ih =>
    obtain ⟨a, b⟩ := hd
    simp only [GoMap.keys, List.map_cons, List.nodup_cons] at h
    by_cases hk : a = k
    · subst hk
      simp only [GoMap.find?, if_true, Option.some.injEq, List.mem_cons, Prod.mk.injEq, true_and]
      constructor
      · intro e; exact Or.inl e.symm
      · rintro (e | e)
        · exact e.symm
        · exact absurd (List.mem_map_of_mem Prod.fst e) h.1
    · simp only [GoMap.find?, hk, if_false, List.mem_cons, Prod.mk.injEq]
      rw [ih h.2]
      constructor
      · intro e; exact Or.inr e
      · rintro (e | e)
        · exact absurd e.1.symm hk
        · exact e

theorem pairTokens_noSlash (ps : List (String × String))
    (h : ∀ p ∈ ps, IsToken p.1 ∧ IsToken p.2) : ∀ x ∈ pairTokens ps, '/' ∉ x.data := by
  intro x hx
  simp only [pairTokens, List.mem_flatMap, List.mem_cons, List.mem_singleton] at hx
  obtain ⟨p, hp, hx⟩ := hx
  simp only [List.not_mem_nil, or_false] at hx
  rcases hx with rfl | rfl
  · exact (h p hp).1.2
  · exact (h p hp).2.2

theorem parseResourceName_format_eq (ps : List (String × String)) (h : WellFormedPairs ps) :
    parseResourceName (formatResourceName ps) = ps := by
  rw [parseResourceName_eq]
  cases ps with
  | nil => rfl
  | cons hd tl =>
    have hne : pairTokens (hd :: tl) ≠ [] := by
      simp [pairTokens]
    rw [formatResourceName, stringsSplit_slashJoin _ hne (pairTokens_noSlash _ h.2),
      pairsOf_pairTokens, assignAll_nodup]
    · rfl
    · simpa [GoMap.keys] using h.1

theorem formatResourceName_two (k1 v1 k2 v2 : String) :
    formatResourceName [(k1, v1), (k2, v2)] = k1 ++ "/" ++ v1 ++ "/" ++ k2 ++ "/" ++ v2 := by
  apply String.ext
  simp [formatResourceName, pairTokens, slashJoin, List.intercalate, List.intersperse]

/-- The names built by `convertDeployment` with `fmt.Sprintf` are resource names of
(kind, identifier) pairs. -/
theorem convertDeployment_names (d : CtDeployment) :
    (convertDeployment d).Name = formatResourceName [("apps", d.AppID), ("deployments", d.ID)] ∧
    (convertDeployment d).OldRelease
      = formatResourceName [("apps", d.AppID), ("releases", d.OldReleaseID)] ∧
    (convertDeployment d).NewRelease
      = formatResourceName [("apps", d.AppID), ("releases", d.NewReleaseID)] := by
  simp only [formatResourceName_two, convertDeployment]
  refine ⟨?_, ?_, ?_⟩ <;> (apply String.ext; simp)

/-- C2 as stated fails: in `a/1/a/2` the even-indexed token `a` at index 0 is followed by
`1`, but the returned mapping sends `a` to `2`. -/
theorem parseResourceName_each_pair_counterexample :
    ¬ (∀ (name : String) (k : Nat) (key val : String),
        (stringsSplit name)[2 * k]? = some key → (stringsSplit name)[2 * k + 1]? = some val →
          (parseResourceName name).find? key = some val) := by
  intro h
  have := h "a/1/a/2" 0 "a" "1" (by decide) (by decide)
  revert this
  decide

/-- C2, amended. For every input string with tokens `t = strings.Split(name, "/")`:
a key is present in the result exactly when it is an even-indexed token `t(2k)` that has
a following token; it is mapped to the token following its last such occurrence; the
empty string yields the empty mapping; `apps/app1/releases/rel1` gives
`apps ↦ app1, releases ↦ rel1`. -/
theorem parseResourceName_spec :
    (∀ name key : String,
      ((parseResourceName name).find? key).isSome ↔
        ∃ k : Nat, (stringsSplit name)[2 * k]? = some key ∧
          ((stringsSplit name)[2 * k + 1]?).isSome) ∧
    (∀ name key val : String,
      (parseResourceName name).find? key = some val ↔
        ∃ k : Nat, (stringsSplit name)[2 * k]? = some key ∧
          (stringsSplit name)[2 * k + 1]? = some val ∧
          ∀ j : Nat, k < j → ((stringsSplit name)[2 * j + 1]?).isSome →
            (stringsSplit name)[2 * j]? ≠ some key) ∧
    parseResourceName "" = [] ∧
    parseResourceName "apps/app1/releases/rel1" = [("apps", "app1"), ("releases", "rel1")] := by
  have values : ∀ name key val : String,
      (parseResourceName name).find? key = some val ↔
        ∃ k : Nat, (stringsSplit name)[2 * k]? = some key ∧
          (stringsSplit name)[2 * k + 1]? = some val ∧
          ∀ j : Nat, k < j → ((stringsSplit name)[2 * j + 1]?).isSome →
            (stringsSplit name)[2 * j]? ≠ some key := by
    intro name key val
    rw [find?_parseResourceName, lookupLast_eq_some]
    constructor
    · rintro ⟨i, hi, hlater⟩
      obtain ⟨h0, h1⟩ := (pairsOf_getElem? _ i key val).mp hi
      refine ⟨i, h0, h1, ?_⟩
      intro j hj hsome hkey
      obtain ⟨w, hw⟩ := Option.isSome_iff_exists.mp hsome
      exact hlater j hj w ((pairsOf_getElem? _ j key w).mpr ⟨hkey, hw⟩)
    · rintro ⟨k, h0, h1, hlater⟩
      refine ⟨k, (pairsOf_getElem? _ k key val).mpr ⟨h0, h1⟩, ?_⟩
      intro j hj w hc
      obtain ⟨hj0, hj1⟩ := (pairsOf_getElem? _ j key w).mp hc
      exact hlater j hj (by simp [hj1]) hj0
  refine ⟨?_, values, by decide, by decide⟩
  intro name key
  constructor
  · intro hs
    obtain ⟨v, hv⟩ := Option.isSome_iff_exists.mp hs
    obtain ⟨k, h0, h1, _⟩ := (values name key v).mp hv
    exact ⟨k, h0, by simp [h1]⟩
  · rintro ⟨k, h0, h1⟩
    obtain ⟨w, hw⟩ := Option.isSome_iff_exists.mp h1
    rw [find?_parseResourceName]
    cases hl : lookupLast (pairsOf (stringsSplit name)) key with
    | some v => simp
    | none =>
      exact absurd ((pairsOf_getElem? _ k key w).mpr ⟨h0, hw⟩ |> List.getElem?_mem)
        ((lookupLast_eq_none _ key).mp hl w)

theorem slashJoin_cons_cons (a b : String) (l : List String) :
    (slashJoin (a :: b :: l)).data = a.data ++ '/' :: (slashJoin (b :: l)).data := by
  simp [slashJoin, List.intercalate, List.intersperse]

theorem foldl_cleanStep_segments (segs acc : List String) (h : ∀ s ∈ segs, IsSegment s) :
    segs.foldl (cleanStep false) acc = segs.reverse ++ acc := by
  induction segs generalizing acc with
  | nil => rfl
  | cons hd tl ih =>
    have hs := h hd (List.mem_cons_self _ _)
    have e : cleanStep false acc hd = hd :: acc := by
      simp [cleanStep, hs.1.1, hs.2.1, hs.2.2]
    rw [List.foldl_cons, e, ih _ (fun s hm => h s (List.mem_cons_of_mem _ hm))]
    simp

theorem slashJoin_head (a : String) (l : List String) (ha : IsToken a) :
    (slashJoin (a :: l)).data ≠ [] ∧ (slashJoin (a :: l)).data.head? ≠ some '/' := by
  have hne : a.data ≠ [] := by
    intro e
    apply ha.1
    cases a
    simp_all
  obtain ⟨c, cs, hc⟩ := List.exists_cons_of_ne_nil hne
  have hslash : c ≠ '/' := by
    intro e
    apply ha.2
    rw [hc, e]
    exact List.mem_cons_self _ _
  cases l with
  | nil =>
    have : (slashJoin [a]).data = a.data := by simp [slashJoin, List.intercalate]
    rw [this, hc]
    simp [hslash]
  | cons b l =>
    rw [slashJoin_cons_cons, hc]
    simp [hslash]

theorem pathClean_segments (segs : List String) (hne : segs ≠ [])
    (h : ∀ s ∈ segs, IsSegment s) : pathClean (slashJoin segs) = slashJoin segs := by
  obtain ⟨a, l, rfl⟩ := List.exists_cons_of_ne_nil hne
  obtain ⟨h1, h2⟩ := slashJoin_head a l (h a (List.mem_cons_self _ _)).1
  have hempty : slashJoin (a :: l) ≠ "" := by
    intro e
    apply h1
    rw [e]
  have hsplit := stringsSplit_slashJoin (a :: l) hne (fun x hx => (h x hx).1.2)
  have hfold := foldl_cleanStep_segments (a :: l) [] h
  unfold pathClean
  have hd : decide ((slashJoin (a :: l)).data.head? = some '/') = false := by
    simpa using h2
  simp only [hempty, if_false, hsplit, hd]
  rw [hfold]
  simp

theorem pathJoin_segments (segs : List String) (hne : segs ≠ [])
    (h : ∀ s ∈ segs, IsSegment s) : pathJoin segs = slashJoin segs := by
  have hf : segs.filter (fun e => e ≠ "") = segs := by
    rw [List.filter_eq_self]
    intro s hs
    simpa using (h s hs).1.1
  unfold pathJoin
  simp only [hf, hne, if_false]
  exact pathClean_segments segs hne h

theorem isSegment_apps : IsSegment "apps" := by decide

theorem isSegment_releases : IsSegment "releases" := by decide

theorem pathJoin_app (id : String) (h : IsSegment id) :
    pathJoin ["apps", id] = slashJoin ["apps", id] := by
  apply pathJoin_segments _ (by simp)
  intro s hs
  simp only [List.mem_cons, List.mem_singleton, List.not_mem_nil, or_false] at hs
  rcases hs with rfl | rfl
  · exact isSegment_apps
  · exact h

theorem pathJoin_release (id rid : String) (h : IsSegment id) (hr : IsSegment rid) :
    pathJoin ["apps", id, "releases", rid] = slashJoin ["apps", id, "releases", rid] := by
  apply pathJoin_segments _ (by simp)
  intro s hs
  simp only [List.mem_cons, List.mem_singleton, List.not_mem_nil, or_false] at hs
  rcases hs with rfl | rfl | rfl | rfl
  · exact isSegment_apps
  · exact h
  · exact isSegment_releases
  · exact hr

theorem pathJoin_release_empty (id : String) (h : IsSegment id) :
    pathJoin ["apps", id, "releases", ""] = slashJoin ["apps", id, "releases"] := by
  have hid : id ≠ "" := h.1.1
  have hf : ["apps", id, "releases", ""].filter (fun e => e ≠ "") = ["apps", id, "releases"] := by
    simp [List.filter, hid]
  unfold pathJoin
  simp only [hf]
  simp only [List.cons_ne_nil, if_false, reduceCtorEq]
  apply pathClean_segments _ (by simp)
  intro s hs
  simp only [List.mem_cons, List.mem_singleton, List.not_mem_nil, or_false] at hs
  rcases hs with rfl | rfl | rfl
  · exact isSegment_apps
  · exact h
  · exact isSegment_releases

theorem parse_app (id : String) (h : IsSegment id) :
    parseResourceName (slashJoin ["apps", id]) = [("apps", id)] := by
  have := parseResourceName_format_eq [("apps", id)]
    ⟨by simp, by
      intro p hp
      simp only [List.mem_singleton] at hp
      subst hp
      exact ⟨isSegment_apps.1, h.1⟩⟩
  exact this

theorem parse_release (id rid : String) (h : IsSegment id) (hr : IsSegment rid) :
    parseResourceName (slashJoin ["apps", id, "releases", rid])
      = [("apps", id), ("releases", rid)] := by
  have := parseResourceName_format_eq [("apps", id), ("releases", rid)]
    ⟨by simp, by
      intro p hp
      simp only [List.mem_cons, List.mem_singleton, List.not_mem_nil, or_false] at hp
      rcases hp with rfl | rfl
      · exact ⟨isSegment_apps.1, h.1⟩
      · exact ⟨isSegment_releases.1, hr.1⟩⟩
  exact this

theorem parse_release_empty (id : String) (h : IsSegment id) :
    parseResourceName (slashJoin ["apps", id, "releases"]) = [("apps", id)] := by
  rw [parseResourceName_eq, stringsSplit_slashJoin _ (by simp)]
  · rfl
  · intro s hs
    simp only [List.mem_cons, List.mem_singleton, List.not_mem_nil, or_false] at hs
    rcases hs with rfl | rfl | rfl
    · exact isSegment_apps.1.2
    · exact h.1.2
    · exact isSegment_releases.1.2

theorem timeUnix_of_range (s n : Int) (h0 : 0 ≤ n) (h1 : n < 1000000000) :
    timeUnix s n = { sec := s, nsec := n } := by
  unfold timeUnix
  have : ¬ (n < 0 ∨ n ≥ 1000000000) := by omega
  simp only [this, if_false]

theorem validTimestamp_iff (ts : Timestamp) :
    validTimestamp ts = true ↔
      minValidSeconds ≤ ts.Seconds ∧ ts.Seconds < maxValidSeconds ∧
        0 ≤ ts.Nanos ∧ ts.Nanos < 1000000000 := by
  simp [validTimestamp, and_assoc]

theorem timestampFromProto_timestampProto (t : Option Time) (h : TimeCarried t) :
    timestampFromProto (timestampProto t) = t := by
  cases t with
  | none => rfl
  | some x =>
    have hv : validTimestamp _ = true := h
    have hr := (validTimestamp_iff _).mp hv
    simp only [timestampProto, ptypesTimestampProto, hv, if_true, timestampFromProto,
      ptypesTimestamp]
    rw [timeUnix_of_range _ _ hr.2.2.1 hr.2.2.2]

theorem timestampProto_timestampFromProto (t : Option Timestamp) (h : TimestampValid t) :
    timestampProto (timestampFromProto t) = t := by
  cases t with
  | none => rfl
  | some x =>
    have hv : validTimestamp _ = true := h
    have hr := (validTimestamp_iff _).mp hv
    simp only [timestampFromProto, ptypesTimestamp, timestampProto, ptypesTimestampProto]
    rw [timeUnix_of_range _ _ hr.2.2.1 hr.2.2.2]
    simp [hv]

theorem index_app (id : String) : GoMap.index [("apps", id)] "apps" = id := by
  simp [GoMap.index, GoMap.find?]

theorem index_app_releases (id : String) : GoMap.index [("apps", id)] "releases" = "" := by
  have : ¬ ("apps" = "releases") := by decide
  simp [GoMap.index, GoMap.find?, this]

theorem index_release (id rid : String) :
    GoMap.index [("apps", id), ("releases", rid)] "releases" = rid := by
  have : ¬ ("apps" = "releases") := by decide
  simp [GoMap.index, GoMap.find?, this]

theorem backConvert_name (id : String) (h : IsSegment id) :
    (parseResourceName (pathJoin ["apps", id])).index "apps" = id := by
  rw [pathJoin_app id h, parse_app id h, index_app]

theorem backConvert_release (id rid : String) (h : IsSegment id)
    (hr : rid = "" ∨ IsSegment rid) :
    (parseResourceName (pathJoin ["apps", id, "releases", rid])).index "releases" = rid := by
  rcases hr with rfl | hr
  · rw [pathJoin_release_empty id h, parse_release_empty id h, index_app_releases]
  · rw [pathJoin_release id rid h hr, parse_release id rid h hr, index_release]

/-- C3 as stated fails: an application whose ID contains a `/` comes back with a
different ID and without its release ID. -/
theorem backConvertApp_convertApp_counterexample :
    ¬ (∀ a : CtApp, backConvertApp (convertApp a) = a) := by
  intro h
  have := congrArg CtApp.ID (h slashedApp)
  revert this
  decide

/-- C3, amended. Application round trip from the backend side: for every backend
application whose ID is a plain path segment (non-empty, no `/`, not `.` or `..`), whose
release ID is empty or a plain path segment, and whose timestamps are absent or within
the range the wire timestamp carries, `backConvertApp (convertApp a)` equals `a` on every
field. -/
theorem backConvertApp_convertApp (a : CtApp) (h : AppCarried a) :
    backConvertApp (convertApp a) = a := by
  obtain ⟨hid, hrid, hc, hu⟩ := h
  cases a with
  | mk ID Name Meta Strategy ReleaseID DeployTimeout CreatedAt UpdatedAt =>
    simp only [backConvertApp, convertApp]
    simp only at hid hrid hc hu
    rw [backConvert_name ID hid, backConvert_release ID ReleaseID hid hrid,
      timestampFromProto_timestampProto _ hc, timestampFromProto_timestampProto _ hu]

/-- Witness for C3: an application with a release and a creation time. -/
theorem backConvertApp_convertApp_witness :
    AppCarried sampleApp ∧ backConvertApp (convertApp sampleApp) = sampleApp :=
  ⟨by decide, backConvertApp_convertApp sampleApp (by decide)⟩

/-- C4 as stated fails: a wire application named `apps/a1` with an empty release reference
comes back with the release reference `apps/a1/releases`. -/
theorem convertApp_backConvertApp_counterexample :
    ¬ (∀ w : App, convertApp (backConvertApp w) = w) := by
  intro h
  have := congrArg App.Release (h unreleasedWireApp)
  revert this
  decide

/-- C4, amended. Application round trip from the wire side: for every wire application
whose name is `apps/id` and whose release reference is `apps/id/releases/rid` with the
same `id`, for plain path segments `id` and `rid` (the reference being `apps/id/releases`
when `rid` is empty), and whose timestamps are absent or valid,
`convertApp (backConvertApp w)` equals `w` on every field. -/
theorem convertApp_backConvertApp (w : App) (id rid : String)
    (h : WireAppCanonical w id rid) : convertApp (backConvertApp w) = w := by
  obtain ⟨hid, hrid, hn, hr, hc, hu⟩ := h
  cases w with
  | mk Name DisplayName Labels Strategy Release DeployTimeout CreateTime UpdateTime =>
    simp only at hn hr hc hu
    subst hn hr
    simp only [backConvertApp, convertApp]
    rw [backConvert_name id hid, backConvert_release id rid hid hrid,
      timestampProto_timestampFromProto _ hc, timestampProto_timestampFromProto _ hu]

/-- Witness for C4: the wire application `apps/a1` with release `apps/a1/releases/r1`. -/
theorem convertApp_backConvertApp_witness :
    WireAppCanonical sampleWireApp "a1" "r1" ∧
      convertApp (backConvertApp sampleWireApp) = sampleWireApp :=
  ⟨by decide, convertApp_backConvertApp sampleWireApp "a1" "r1" (by decide)⟩

/-- C5. Timestamp absence is preserved in both directions: `timestampProto` of an absent
backend timestamp is an absent wire timestamp and `timestampFromProto` of an absent wire
timestamp is an absent backend timestamp; no epoch value is put in its place. -/
theorem timestamp_absent_preserved :
    timestampProto none = none ∧ timestampFromProto none = none ∧
      timestampProto none ≠ some { Seconds := 0, Nanos := 0 } ∧
      timestampFromProto none ≠ some (timeUnix 0 0) := by
  refine ⟨rfl, rfl, ?_, ?_⟩ <;> simp [timestampProto, timestampFromProto]

/-- C6. `convertDeploymentStatus` is total: it maps `pending`, `running`, `complete` and
`failed` onto PENDING, RUNNING, COMPLETE and FAILED, one-to-one on these four strings, and
every other string (the empty string and other spellings included) to PENDING. -/
theorem convertDeploymentStatus_spec :
    convertDeploymentStatus "pending" = Deployment_Status.PENDING ∧
    convertDeploymentStatus "running" = Deployment_Status.RUNNING ∧
    convertDeploymentStatus "complete" = Deployment_Status.COMPLETE ∧
    convertDeploymentStatus "failed" = Deployment_Status.FAILED ∧
    (∀ s t : String, s ∈ ["pending", "running", "complete", "failed"] →
      t ∈ ["pending", "running", "complete", "failed"] →
      convertDeploymentStatus s = convertDeploymentStatus t → s = t) ∧
    (∀ s : String, s ∉ ["pending", "running", "complete", "failed"] →
      convertDeploymentStatus s = Deployment_Status.PENDING) ∧
    convertDeploymentStatus "" = Deployment_Status.PENDING ∧
    convertDeploymentStatus "Pending" = Deployment_Status.PENDING ∧
    convertDeploymentStatus "COMPLETE" = Deployment_Status.PENDING := by
  refine ⟨by decide, by decide, by decide, by decide, ?_, ?_, by decide, by decide, by decide⟩
  · intro s t hs ht
    simp only [List.mem_cons, List.mem_singleton, List.not_mem_nil, or_false] at hs ht
    rcases hs with rfl | rfl | rfl | rfl <;> rcases ht with rfl | rfl | rfl | rfl <;> decide
  · intro s hs
    simp only [List.mem_cons, List.mem_singleton, List.not_mem_nil, or_false, not_or] at hs
    obtain ⟨h1, h2, h3, h4⟩ := hs
    simp [convertDeploymentStatus, h1, h2, h3, h4]

/-- Witness for C6: the spelling `Failed` is none of the four known strings. -/
theorem convertDeploymentStatus_spec_witness :
    "Failed" ∉ ["pending", "running", "complete", "failed"] ∧
      convertDeploymentStatus "Failed" = Deployment_Status.PENDING :=
  ⟨by decide, convertDeploymentStatus_spec.2.2.2.2.2.1 "Failed" (by decide)⟩

theorem eventLoop_continue (marshal : Deployment → Except String (List Nat)) (ev : Delivered)
    (rest : List Delivered) (h : endsStream marshal ev = false) :
    eventLoop marshal (ev :: rest) = (eventLoop marshal rest).after (stepCalls marshal ev) := by
  unfold endsStream pushedStatus at h
  unfold stepCalls
  simp only [eventLoop]
  by_cases ht : ev.event.ObjectType ≠ "deployment"
  · simp [ht, LoopRun.after]
  · simp only [ht, if_false] at h ⊢
    cases hg : ev.getDeployment with
    | error e => simp [LoopRun.after]
    | ok d =>
      rw [hg] at h
      simp only at h ⊢
      cases hm : marshal (convertDeployment d) with
      | error e => simp [LoopRun.after]
      | ok b =>
        rw [hm] at h
        simp only [decide_eq_false_iff_not] at h
        simp [h, LoopRun.after]

theorem eventLoop_stop (marshal : Deployment → Except String (List Nat)) (ev : Delivered)
    (rest : List Delivered) (h : endsStream marshal ev = true) :
    eventLoop marshal (ev :: rest) = { calls := stepCalls marshal ev, unread := rest } ∧
      ∃ e, (stepCalls marshal ev).getLast? = some (Call.send e) := by
  unfold endsStream pushedStatus at h
  unfold stepCalls
  simp only [eventLoop]
  by_cases ht : ev.event.ObjectType ≠ "deployment"
  · simp [ht] at h
  · simp only [ht, if_false] at h ⊢
    cases hg : ev.getDeployment with
    | error e => simp [hg] at h
    | ok d =>
      rw [hg] at h
      simp only at h ⊢
      cases hm : marshal (convertDeployment d) with
      | error e => simp [hm] at h
      | ok b =>
        rw [hm] at h
        simp only [decide_eq_true_eq] at h
        simp [h]

theorem receivedEvents_stepCalls (marshal : Deployment → Except String (List Nat))
    (ev : Delivered) : receivedEvents (stepCalls marshal ev) = [ev.event] := by
  unfold stepCalls receivedEvents
  simp only [eventLoop]
  by_cases ht : ev.event.ObjectType ≠ "deployment"
  · simp [ht, LoopRun.after]
  · simp only [ht, if_false]
    cases hg : ev.getDeployment with
    | error e => simp [LoopRun.after]
    | ok d =>
      simp only
      cases hm : marshal (convertDeployment d) with
      | error e => simp [LoopRun.after]
      | ok b =>
        by_cases hs : d.Status = "complete" ∨ d.Status = "failed" <;> simp [hs, LoopRun.after]

theorem LoopRun.after_after (cs ds : List Call) (r : LoopRun) :
    (r.after ds).after cs = r.after (cs ++ ds) := by
  simp [LoopRun.after]

theorem eventLoop_append (marshal : Deployment → Except String (List Nat))
    (pre rest : List Delivered) (h : ∀ x ∈ pre, endsStream marshal x = false) :
    eventLoop marshal (pre ++ rest)
      = (eventLoop marshal rest).after (pre.flatMap (stepCalls marshal)) := by
  induction pre with
  | nil => simp [LoopRun.after]
  | cons hd tl ih =>
    rw [List.cons_append, eventLoop_continue marshal hd _ (h hd (List.mem_cons_self _ _)),
      ih (fun x hx => h x (List.mem_cons_of_mem _ hx)), LoopRun.after_after]
    simp

theorem receivedEvents_append (cs ds : List Call) :
    receivedEvents (cs ++ ds) = receivedEvents cs ++ receivedEvents ds := by
  simp [receivedEvents]

theorem receivedEvents_flatMap (marshal : Deployment → Except String (List Nat))
    (feed : List Delivered) :
    receivedEvents (feed.flatMap (stepCalls marshal)) = feed.map (fun x => x.event) := by
  induction feed with
  | nil => rfl
  | cons hd tl ih =>
    rw [List.flatMap_cons, receivedEvents_append, receivedEvents_stepCalls, ih]
    rfl

/-- C7. Stream termination in `CreateDeployment`. For every delivered sequence: once an
event is pushed whose re-fetched deployment is complete or failed, the loop ends right
after that push, its calls do not depend on the events that follow, and those events stay
unread; if no such event occurs, every delivered event is received and the loop ends when
the feed is found closed. With re-fetched statuses pending, running, complete exactly
three events are pushed and a fourth delivered event is never received. -/
theorem createDeployment_stream_termination
    (marshal : Deployment → Except String (List Nat)) :
    (∀ (pre : List Delivered) (ev : Delivered) (post : List Delivered),
      (∀ x ∈ pre, endsStream marshal x = false) → endsStream marshal ev = true →
        (eventLoop marshal (pre ++ ev :: post)).unread = post ∧
        (eventLoop marshal (pre ++ ev :: post)).calls = (eventLoop marshal (pre ++ [ev])).calls ∧
        receivedEvents (eventLoop marshal (pre ++ ev :: post)).calls
          = (pre ++ [ev]).map (fun x => x.event) ∧
        ∃ e, (eventLoop marshal (pre ++ ev :: post)).calls.getLast? = some (Call.send e)) ∧
    (∀ feed : List Delivered, (∀ x ∈ feed, endsStream marshal x = false) →
        (eventLoop marshal feed).unread = [] ∧
        receivedEvents (eventLoop marshal feed).calls = feed.map (fun x => x.event) ∧
        (eventLoop marshal feed).calls.getLast? = some Call.feedClosed) ∧
    (pushedEvents (eventLoop marshalOk [deliveredOk 1 "pending", deliveredOk 2 "running",
        deliveredOk 3 "complete", deliveredOk 4 "complete"]).calls).map (fun e => e.Name)
      = ["events/1", "events/2", "events/3"] ∧
    receivedEvents (eventLoop marshalOk [deliveredOk 1 "pending", deliveredOk 2 "running",
        deliveredOk 3 "complete", deliveredOk 4 "complete"]).calls
      = [(deliveredOk 1 "pending").event, (deliveredOk 2 "running").event,
          (deliveredOk 3 "complete").event] ∧
    fetchedIDs (eventLoop marshalOk [deliveredOk 1 "pending", deliveredOk 2 "running",
        deliveredOk 3 "complete", deliveredOk 4 "complete"]).calls = ["d1", "d1", "d1"] := by
  refine ⟨?_, ?_, by decide, by decide, by decide⟩
  · intro pre ev post hpre hev
    obtain ⟨hstop, e, he⟩ := eventLoop_stop marshal ev post hev
    obtain ⟨hstop1, _⟩ := eventLoop_stop marshal ev [] hev
    have hne : stepCalls marshal ev ≠ [] := by
      intro hnil
      rw [hnil] at he
      simp at he
    rw [eventLoop_append marshal pre _ hpre, eventLoop_append marshal pre _ hpre, hstop, hstop1]
    simp only [LoopRun.after]
    refine ⟨trivial, trivial, ?_, e, ?_⟩
    · rw [receivedEvents_append, receivedEvents_flatMap, receivedEvents_stepCalls]
      simp
    · rw [List.getLast?_append_of_ne_nil _ hne, he]
  · intro feed hfeed
    have := eventLoop_append marshal feed [] hfeed
    rw [List.append_nil] at this
    rw [this]
    simp only [LoopRun.after, eventLoop]
    refine ⟨trivial, ?_, ?_⟩
    · rw [receivedEvents_append, receivedEvents_flatMap]
      simp [receivedEvents]
    · simp

/-- Witness for C7: the feed pending, running, complete followed by one more event. -/
theorem createDeployment_stream_termination_witness :
    (∀ x ∈ [deliveredOk 1 "pending", deliveredOk 2 "running"], endsStream marshalOk x = false) ∧
    endsStream marshalOk (deliveredOk 3 "complete") = true ∧
    (eventLoop marshalOk ([deliveredOk 1 "pending", deliveredOk 2 "running"] ++
        deliveredOk 3 "complete" :: [deliveredOk 4 "complete"])).unread
      = [deliveredOk 4 "complete"] :=
  ⟨by decide, by decide,
    ((createDeployment_stream_termination marshalOk).1
      [deliveredOk 1 "pending", deliveredOk 2 "running"] (deliveredOk 3 "complete")
      [deliveredOk 4 "complete"] (by decide) (by decide)).1⟩

theorem endsStream_of_fetch_error (marshal : Deployment → Except String (List Nat))
    (ev : Delivered) (e : String) (h : ev.getDeployment = Except.error e) :
    endsStream marshal ev = false := by
  unfold endsStream pushedStatus
  rw [h]
  by_cases ht : ev.event.ObjectType ≠ "deployment" <;> simp [ht]

/-- C8 as stated fails: after a failed re-fetch, a later deployment event whose re-fetch
succeeds is still not pushed when its serialization fails. -/
theorem refetch_ok_pushed_counterexample :
    ¬ (∀ (marshal : Deployment → Except String (List Nat)) (pre : List Delivered)
        (x : Delivered) (post : List Delivered) (d : CtDeployment),
        (∀ y ∈ pre, endsStream marshal y = false) → x.event.ObjectType = "deployment" →
        x.getDeployment = Except.ok d →
        ("events/" ++ toString x.event.ID) ∈
          (pushedEvents (eventLoop marshal (pre ++ x :: post)).calls).map (fun e => e.Name)) := by
  intro h
  have := h marshalError [deliveredFetchError 1] (deliveredOk 2 "running") []
    (sampleDeployment "running") (by decide) (by decide) rfl
  revert this
  decide

/-- C8, amended. Per-event failures are not fatal in `CreateDeployment`: an event whose
re-fetch fails is logged and skipped and the loop goes on with the next event; and every
delivered deployment event that comes before any pushed complete or failed deployment,
whose re-fetch succeeds and whose serialization succeeds, is pushed to the client. -/
theorem refetch_failure_not_fatal (marshal : Deployment → Except String (List Nat)) :
    (∀ (ev : Delivered) (rest : List Delivered) (e : String),
      ev.event.ObjectType = "deployment" → ev.getDeployment = Except.error e →
        endsStream marshal ev = false ∧
        eventLoop marshal (ev :: rest)
          = (eventLoop marshal rest).after
              [Call.receive ev.event, Call.getDeployment ev.event.ObjectID,
               Call.printf
                ("Failed to get deployment(" ++ ev.event.ObjectID ++ "): " ++ e ++ "\n")]) ∧
    (∀ (pre : List Delivered) (x : Delivered) (post : List Delivered) (d : CtDeployment)
      (bytes : List Nat),
      (∀ y ∈ pre, endsStream marshal y = false) → x.event.ObjectType = "deployment" →
      x.getDeployment = Except.ok d → marshal (convertDeployment d) = Except.ok bytes →
        Call.send (wireEvent x.event d bytes) ∈ (eventLoop marshal (pre ++ x :: post)).calls) := by
  constructor
  · intro ev rest e ht hg
    refine ⟨endsStream_of_fetch_error marshal ev e hg, ?_⟩
    simp [eventLoop, ht, hg]
  · intro pre x post d bytes hpre ht hg hm
    rw [eventLoop_append marshal pre _ hpre]
    simp only [LoopRun.after, eventLoop, ht, hg, hm]
    by_cases hs : d.Status = "complete" ∨ d.Status = "failed" <;> simp [hs, LoopRun.after]

/-- Witness for C8: a failed re-fetch followed by a deployment event that is pushed. -/
theorem refetch_failure_not_fatal_witness :
    (∀ y ∈ [deliveredFetchError 1], endsStream marshalOk y = false) ∧
    (deliveredOk 2 "running").event.ObjectType = "deployment" ∧
    Call.send (wireEvent (deliveredOk 2 "running").event (sampleDeployment "running") [10]) ∈
      (eventLoop marshalOk ([deliveredFetchError 1] ++ deliveredOk 2 "running" :: [])).calls :=
  ⟨by decide, by decide,
    (refetch_failure_not_fatal marshalOk).2 [deliveredFetchError 1] (deliveredOk 2 "running") []
      (sampleDeployment "running") [10] (by decide) (by decide) rfl rfl⟩

/-- C9 as stated fails: after a failed push of a running deployment the loop receives the
next delivered event. -/
theorem failed_send_exits_counterexample :
    ¬ (∀ (marshal : Deployment → Except String (List Nat)) (pre : List Delivered)
        (ev : Delivered) (post : List Delivered) (e : String),
        (∀ x ∈ pre, endsStream marshal x = false) → pushedStatus marshal ev ≠ none →
        ev.send = some e → (eventLoop marshal (pre ++ ev :: post)).unread = post) := by
  intro h
  have := congrArg List.length
    (h marshalOk [] (deliveredSendError 1 "running") [deliveredOk 2 "running"]
      "transport is closing" (by decide) (by decide) rfl)
  revert this
  decide

theorem eventLoop_withSend (marshal : Deployment → Except String (List Nat))
    (f : Delivered → Option String) (feed : List Delivered) :
    (eventLoop marshal (feed.map (fun ev => ev.withSend (f ev)))).calls
      = (eventLoop marshal feed).calls := by
  induction feed with
  | nil => rfl
  | cons hd tl ih =>
    have e1 : (hd.withSend (f hd)).event = hd.event := rfl
    have e2 : (hd.withSend (f hd)).getDeployment = hd.getDeployment := rfl
    simp only [List.map_cons, eventLoop, e1, e2]
    by_cases ht : hd.event.ObjectType ≠ "deployment"
    · rw [if_pos ht, if_pos ht]
      simp only [LoopRun.after, ih]
    · rw [if_neg ht, if_neg ht]
      cases hg : hd.getDeployment with
      | error e => simp only [LoopRun.after, ih]
      | ok d =>
        simp only
        cases hm : marshal (convertDeployment d) with
        | error e => simp only [LoopRun.after, ih]
        | ok b =>
          by_cases hs : d.Status = "complete" ∨ d.Status = "failed"
          · simp only [hs, if_true]
          · simp only [hs, if_false, LoopRun.after, ih]

theorem eventLoop_no_close (marshal : Deployment → Except String (List Nat))
    (feed : List Delivered) : Call.close ∉ (eventLoop marshal feed).calls := by
  induction feed with
  | nil => simp [eventLoop]
  | cons hd tl ih =>
    simp only [eventLoop]
    by_cases ht : hd.event.ObjectType ≠ "deployment"
    · simp [ht, LoopRun.after, ih]
    · simp only [ht, if_false]
      cases hg : hd.getDeployment with
      | error e => simp [LoopRun.after, ih]
      | ok d =>
        simp only
        cases hm : marshal (convertDeployment d) with
        | error e => simp [LoopRun.after, ih]
        | ok b =>
          by_cases hs : d.Status = "complete" ∨ d.Status = "failed" <;>
            simp [hs, LoopRun.after, ih]

/-- C9, amended. In `CreateDeployment` the error returned by a push is discarded: with
any other outcomes of the pushes the handler makes the same calls and returns the same
result, so a failed push does not end the loop; and whenever the deployment is created
and the subscription is established, the subscription is closed exactly once, after the
event loop. -/
theorem send_error_ignored (s : Backend) (req : CreateDeploymentRequest) :
    (∀ f : Delivered → Option String,
      CreateDeployment (s.withSends f) req = CreateDeployment s req) ∧
    (∀ d : CtDeployment,
      s.createDeployment ((parseResourceName req.Parent).index "apps")
        ((parseResourceName req.Release).index "releases") = Except.ok d →
      s.streamEvents { AppID := d.AppID, ObjectID := d.ID, ObjectTypes := ["deployment"],
                       Past := true } = none →
        (CreateDeployment s req).calls.count Call.close = 1 ∧
        ∃ tail, (CreateDeployment s req).calls
          = [Call.createDeployment ((parseResourceName req.Parent).index "apps")
                ((parseResourceName req.Release).index "releases"),
              Call.streamEvents { AppID := d.AppID, ObjectID := d.ID,
                                  ObjectTypes := ["deployment"], Past := true }]
            ++ (eventLoop s.marshal s.feed).calls ++ Call.close :: tail) := by
  constructor
  · intro f
    simp only [CreateDeployment, Backend.withSends, eventLoop_withSend]
  · intro d hc hs
    have hno := eventLoop_no_close s.marshal s.feed
    have hcount : List.count Call.close (eventLoop s.marshal s.feed).calls = 0 :=
      List.count_eq_zero.mpr hno
    simp only [CreateDeployment, hc, hs]
    cases hcl : s.close with
    | some e =>
      refine ⟨?_, [], by simp⟩
      simp [List.count_append, hcount, List.count_cons]
    | none =>
      refine ⟨?_, [Call.err], by simp⟩
      simp [List.count_append, hcount, List.count_cons]

/-- Witness for C9: a stream whose first push fails. -/
theorem send_error_ignored_witness :
    (sampleBackend [deliveredSendError 1 "running", deliveredOk 2 "complete"]).createDeployment
        ((parseResourceName sampleRequest.Parent).index "apps")
        ((parseResourceName sampleRequest.Release).index "releases")
      = Except.ok (sampleDeployment "pending") ∧
    (CreateDeployment (sampleBackend [deliveredSendError 1 "running",
        deliveredOk 2 "complete"]) sampleRequest).calls.count Call.close = 1 :=
  ⟨rfl, ((send_error_ignored (sampleBackend [deliveredSendError 1 "running",
      deliveredOk 2 "complete"]) sampleRequest).2 (sampleDeployment "pending") rfl rfl).1⟩

/-- C10, the code at a gRPC-web request: both servers are called, the gRPC-web server and
then the default mux; any other request goes to the default mux only. -/
theorem dispatch_grpcWeb_serves_both :
    dispatch true = [Served.grpcWeb, Served.defaultServeMux] ∧
      dispatch false = [Served.defaultServeMux] := by
  decide

/-! ## Properties of the request/response handlers -/

theorem formatResourceName_one (k v : String) :
    formatResourceName [(k, v)] = k ++ "/" ++ v := by
  apply String.ext
  simp [formatResourceName, pairTokens, slashJoin, List.intercalate, List.intersperse]

theorem parse_apps_token (appID : String) (h : IsToken appID) :
    (parseResourceName ("apps/" ++ appID)).index "apps" = appID := by
  have hw : WellFormedPairs [("apps", appID)] := by
    refine ⟨by simp, ?_⟩
    intro p hp
    simp only [List.mem_singleton] at hp
    subst hp
    exact ⟨isSegment_apps.1, h⟩
  have e := parseResourceName_format_eq [("apps", appID)] hw
  rw [formatResourceName_one] at e
  have e2 : ("apps" : String) ++ "/" ++ appID = "apps/" ++ appID := by
    apply String.ext
    simp
  rw [e2] at e
  rw [e, index_app]

/-- C11. Request/response handlers pass a backend failure on unchanged: in each of
`ListApps`, `GetApp`, `UpdateApp`, `GetRelease`, `ListReleases` (either listing) and
`CreateRelease`, when the backend call returns the error `e` the handler returns exactly
`e` with no response, and that call is the only backend call it makes. -/
theorem rpc_backend_error_verbatim (c : Client) (e : String) :
    (c.appList = Except.error e →
      ListApps c = { calls := [ClientCall.appList], result := Except.error e }) ∧
    (∀ req : GetAppRequest,
      c.getApp ((parseResourceName req.Name).index "apps") = Except.error e →
      GetApp c req = { calls := [ClientCall.getApp ((parseResourceName req.Name).index "apps")],
                       result := Except.error e }) ∧
    (∀ req : UpdateAppRequest,
      c.updateApp (backConvertApp req.App) = Except.error e →
      UpdateApp c req = { calls := [ClientCall.updateApp (backConvertApp req.App)],
                          result := Except.error e }) ∧
    (∀ req : GetReleaseRequest,
      c.getRelease ((parseResourceName req.Name).index "releases") = Except.error e →
      GetRelease c req
        = { calls := [ClientCall.getRelease ((parseResourceName req.Name).index "releases")],
            result := Except.error e }) ∧
    (∀ req : ListReleasesRequest,
      (parseResourceName req.Parent).index "apps" = "" → c.releaseList = Except.error e →
      ListReleases c req = { calls := [ClientCall.releaseList], result := Except.error e }) ∧
    (∀ req : ListReleasesRequest,
      (parseResourceName req.Parent).index "apps" ≠ "" →
      c.appReleaseList ((parseResourceName req.Parent).index "apps") = Except.error e →
      ListReleases c req
        = { calls := [ClientCall.appReleaseList ((parseResourceName req.Parent).index "apps")],
            result := Except.error e }) ∧
    (∀ req : CreateReleaseRequest,
      c.createRelease ((parseResourceName req.Parent).index "apps")
        (newCtRelease req.Release) = Except.error e →
      CreateRelease c req
        = { calls := [ClientCall.createRelease ((parseResourceName req.Parent).index "apps")
                        (newCtRelease req.Release)],
            result := Except.error e }) := by
  refine ⟨?_, ?_, ?_, ?_, ?_, ?_, ?_⟩
  · intro h
    simp only [ListApps, h]
  · intro req h
    simp only [GetApp, h]
  · intro req h
    simp only [UpdateApp, h]
  · intro req h
    simp only [GetRelease, h]
  · intro req h0 h
    simp only [ListReleases, h0, if_true, h]
  · intro req h0 h
    simp only [ListReleases, h0, if_false, h]
  · intro req h
    simp only [CreateRelease, h]

/-- Witness for C11: `ListApps` on a backend whose application listing fails. -/
theorem rpc_backend_error_verbatim_witness :
    failingClient.appList = Except.error "unavailable" ∧
      ListApps failingClient
        = { calls := [ClientCall.appList], result := Except.error "unavailable" } :=
  ⟨rfl, (rpc_backend_error_verbatim failingClient "unavailable").1 rfl⟩

/-- C12. `ListReleases` scoping: with an empty parent the handler makes the single backend
call `ReleaseList`; with the parent `apps/appID`, `appID` a name token, it makes the single
backend call `AppReleaseList(appID)`; in both cases a successful listing is answered with
`convertRelease` of every backend release, in the same order and of the same length. -/
theorem listReleases_scoping (c : Client) :
    (∀ req : ListReleasesRequest, req.Parent = "" →
      (ListReleases c req).calls = [ClientCall.releaseList] ∧
      (ListReleases c req).result
        = (c.releaseList).map (fun rs => { Releases := rs.map convertRelease })) ∧
    (∀ (req : ListReleasesRequest) (appID : String), IsToken appID →
      req.Parent = "apps/" ++ appID →
      (ListReleases c req).calls = [ClientCall.appReleaseList appID] ∧
      (ListReleases c req).result
        = (c.appReleaseList appID).map (fun rs => { Releases := rs.map convertRelease })) ∧
    (∀ rs : List CtRelease,
      (rs.map convertRelease).length = rs.length ∧
      ∀ i : Nat, (rs.map convertRelease)[i]? = (rs[i]?).map convertRelease) := by
  refine ⟨?_, ?_, ?_⟩
  · intro req hp
    have h0 : (parseResourceName req.Parent).index "apps" = "" := by
      rw [hp]; decide
    simp only [ListReleases, h0, if_true]
    cases c.releaseList <;> exact ⟨rfl, rfl⟩
  · intro req appID ht hp
    have h0 : (parseResourceName req.Parent).index "apps" = appID := by
      rw [hp, parse_apps_token appID ht]
    have hne : ¬ appID = "" := ht.1
    simp only [ListReleases, h0, hne, if_false]
    cases c.appReleaseList appID <;> exact ⟨rfl, rfl⟩
  · intro rs
    exact ⟨List.length_map _ _, fun i => List.getElem?_map _ _ _⟩

/-- Witness for C12: the releases of application `a1`. -/
theorem listReleases_scoping_witness :
    IsToken "a1" ∧
      (ListReleases sampleClient { Parent := "apps/a1" }).calls
        = [ClientCall.appReleaseList "a1"] :=
  ⟨by decide, ((listReleases_scoping sampleClient).2.1 { Parent := "apps/a1" } "a1"
    (by decide) rfl).1⟩

/-- C13. `ListApps` pagination: for every successful backend application list, of any
length, the response has an empty `NextPageToken` and its `Apps` are `convertApp` of the
backend applications, element by element, of the same length and in the same order. -/
theorem listApps_pagination (c : Client) (ctApps : List CtApp)
    (h : c.appList = Except.ok ctApps) :
    ListApps c = { calls := [ClientCall.appList],
                   result := Except.ok { Apps := ctApps.map convertApp, NextPageToken := "" } } ∧
    (ctApps.map convertApp).length = ctApps.length ∧
    ∀ i : Nat, (ctApps.map convertApp)[i]? = (ctApps[i]?).map convertApp := by
  refine ⟨?_, List.length_map _ _, fun i => List.getElem?_map _ _ _⟩
  simp only [ListApps, h]

/-- Witness for C13: a backend with one application. -/
theorem listApps_pagination_witness :
    sampleClient.appList = Except.ok [sampleApp] ∧
      ListApps sampleClient
        = { calls := [ClientCall.appList],
            result := Except.ok { Apps := [sampleApp].map convertApp, NextPageToken := "" } } :=
  ⟨rfl, (listApps_pagination sampleClient [sampleApp] rfl).1⟩

/-! ## Properties of the process type, release and port conversions -/

theorem GoMap.foldl_set_eq_append {α β : Type} (f : α → β) (src : GoMap α) (acc : GoMap β)
    (h : (GoMap.keys acc ++ GoMap.keys src).Nodup) :
    src.foldl (fun (dst : GoMap β) kv => GoMap.set dst kv.1 (f kv.2)) acc
      = acc ++ src.map (fun kv => (kv.1, f kv.2)) := by
  induction src generalizing acc with
  | nil => simp
  | cons hd tl ih =>
    obtain ⟨k, v⟩ := hd
    have hk : k ∉ GoMap.keys acc := by
      intro hm
      have := (List.nodup_append.mp h).2.2
      exact this hm (by simp [GoMap.keys])
    rw [List.foldl_cons, GoMap.set_of_not_mem acc k (f v) hk, ih]
    · simp
    · simpa [GoMap.keys] using h

theorem GoMap.foldl_set_eq_map {α β : Type} (f : α → β) (src : GoMap α)
    (h : (GoMap.keys src).Nodup) :
    src.foldl (fun (dst : GoMap β) kv => GoMap.set dst kv.1 (f kv.2)) [] = src.map (fun kv => (kv.1, f kv.2)) := by
  have := GoMap.foldl_set_eq_append f src [] (by simpa [GoMap.keys] using h)
  simpa using this

theorem GoMap.keys_mapValues {α β : Type} (f : α → β) (m : GoMap α) :
    GoMap.keys (m.map (fun kv => (kv.1, f kv.2))) = GoMap.keys m := by
  simp [GoMap.keys, List.map_map, Function.comp_def]

theorem GoMap.find?_mapValues {α β : Type} (f : α → β) (m : GoMap α) (k : String) :
    GoMap.find? (m.map (fun kv => (kv.1, f kv.2))) k = (GoMap.find? m k).map f := by
  induction m with
  | nil => rfl
  | cons hd tl ih =>
    obtain ⟨a, b⟩ := hd
    by_cases h : a = k
    · simp [GoMap.find?, h]
    · simp only [List.map_cons, GoMap.find?, h, if_false]
      exact ih

theorem convertProcesses_eq_map (m : GoMap CtProcessType) (h : (GoMap.keys m).Nodup) :
    convertProcesses m = m.map (fun kv => (kv.1, convertProcessType kv.2)) :=
  GoMap.foldl_set_eq_map convertProcessType m h

theorem backConvertProcesses_eq_map (w : GoMap ProcessType) (h : (GoMap.keys w).Nodup) :
    backConvertProcesses w = w.map (fun kv => (kv.1, backConvertProcessType kv.2)) :=
  GoMap.foldl_set_eq_map backConvertProcessType w h

theorem backConvertProcesses_convertProcesses (m : GoMap CtProcessType)
    (h : (GoMap.keys m).Nodup) :
    backConvertProcesses (convertProcesses m)
      = m.map (fun kv => (kv.1, backConvertProcessType (convertProcessType kv.2))) := by
  rw [convertProcesses_eq_map m h, backConvertProcesses_eq_map]
  · simp [List.map_map, Function.comp_def]
  · rw [GoMap.keys_mapValues]; exact h

theorem convertProcesses_backConvertProcesses (w : GoMap ProcessType)
    (h : (GoMap.keys w).Nodup) :
    convertProcesses (backConvertProcesses w)
      = w.map (fun kv => (kv.1, convertProcessType (backConvertProcessType kv.2))) := by
  rw [backConvertProcesses_eq_map w h, convertProcesses_eq_map]
  · simp [List.map_map, Function.comp_def]
  · rw [GoMap.keys_mapValues]; exact h

/-- C15. Process-type round trip on the carried fields: for every map of backend process
types, `backConvertProcesses (convertProcesses m)` has the keys of `m` and under every key
a process type with the same `Args`, `Env`, `Omni`, `HostNetwork`, `HostPIDNamespace`,
`Service`, `Resurrect`, `LinuxCapabilities` and `WriteableCgroups`; and likewise
`convertProcesses (backConvertProcesses w)` for every map `w` of wire process types. -/
theorem processes_roundtrip_scalars :
    (∀ m : GoMap CtProcessType, (GoMap.keys m).Nodup →
      GoMap.keys (backConvertProcesses (convertProcesses m)) = GoMap.keys m ∧
      ∀ (k : String) (t : CtProcessType), GoMap.find? m k = some t →
        ∃ t', GoMap.find? (backConvertProcesses (convertProcesses m)) k = some t' ∧
          t'.SameScalars t) ∧
    (∀ w : GoMap ProcessType, (GoMap.keys w).Nodup →
      GoMap.keys (convertProcesses (backConvertProcesses w)) = GoMap.keys w ∧
      ∀ (k : String) (t : ProcessType), GoMap.find? w k = some t →
        ∃ t', GoMap.find? (convertProcesses (backConvertProcesses w)) k = some t' ∧
          t'.SameScalars t) := by
  constructor
  · intro m h
    rw [backConvertProcesses_convertProcesses m h]
    refine ⟨GoMap.keys_mapValues (fun x => backConvertProcessType (convertProcessType x)) m, ?_⟩
    intro k t hk
    refine ⟨backConvertProcessType (convertProcessType t), ?_, ?_⟩
    · rw [GoMap.find?_mapValues (fun x => backConvertProcessType (convertProcessType x)) m k, hk]
      rfl
    · simp [CtProcessType.SameScalars, backConvertProcessType, convertProcessType]
  · intro w h
    rw [convertProcesses_backConvertProcesses w h]
    refine ⟨GoMap.keys_mapValues (fun x => convertProcessType (backConvertProcessType x)) w, ?_⟩
    intro k t hk
    refine ⟨convertProcessType (backConvertProcessType t), ?_, ?_⟩
    · rw [GoMap.find?_mapValues (fun x => convertProcessType (backConvertProcessType x)) w k, hk]
      rfl
    · simp [ProcessType.SameScalars, backConvertProcessType, convertProcessType]

/-- Witness for C15: the single process type `web`. -/
theorem processes_roundtrip_scalars_witness :
    (GoMap.keys [("web", sampleProcessType)]).Nodup ∧
      GoMap.keys (backConvertProcesses (convertProcesses [("web", sampleProcessType)]))
        = GoMap.keys [("web", sampleProcessType)] :=
  ⟨by decide, (processes_roundtrip_scalars.1 [("web", sampleProcessType)] (by decide)).1⟩

/-- C14 as stated fails: the release `r1` of application `a1` converted to the wire and
back with the mapping of `CreateRelease` has lost its ID (and its application ID). -/
theorem release_roundtrip_counterexample :
    ¬ (∀ r : CtRelease, newCtRelease (convertRelease r) = r) := by
  intro h
  have := congrArg CtRelease.ID (h storedRelease)
  revert this
  decide

/-- C14, amended. For every backend release `r`, `convertRelease r` has `Artifacts` equal
to `r.ArtifactIDs` in the same order and `Env` equal to `r.Env`; converting that wire
release back with the mapping of `CreateRelease` gives a release with the same
`ArtifactIDs`, `Env` and `Meta`, with `Processes` taken through both process-type
conversions, and with `ID`, `AppID` and `CreatedAt` at their zero values; so it gives back
`r` itself when `r` has no ID, no application ID, no creation time and process types that
come back unchanged. -/
theorem release_roundtrip (r : CtRelease) :
    (convertRelease r).Artifacts = r.ArtifactIDs ∧
    (convertRelease r).Env = r.Env ∧
    (newCtRelease (convertRelease r)).ArtifactIDs = r.ArtifactIDs ∧
    (newCtRelease (convertRelease r)).Env = r.Env ∧
    (newCtRelease (convertRelease r)).Meta = r.Meta ∧
    (newCtRelease (convertRelease r)).Processes
      = backConvertProcesses (convertProcesses r.Processes) ∧
    (newCtRelease (convertRelease r)).ID = "" ∧
    (newCtRelease (convertRelease r)).AppID = "" ∧
    (newCtRelease (convertRelease r)).CreatedAt = none ∧
    (r.ID = "" → r.AppID = "" → r.CreatedAt = none →
      backConvertProcesses (convertProcesses r.Processes) = r.Processes →
      newCtRelease (convertRelease r) = r) := by
  refine ⟨rfl, rfl, rfl, rfl, rfl, rfl, rfl, rfl, rfl, ?_⟩
  intro h1 h2 h3 h4
  cases r with
  | mk ID AppID ArtifactIDs Env Meta Processes CreatedAt =>
    simp only at h1 h2 h3 h4
    subst h1 h2 h3
    simp only [newCtRelease, convertRelease, h4]

/-- Witness for C14: `ArtifactIDs = ["a1", "a2"]`, `Env = {"K": "V"}`. -/
theorem release_roundtrip_witness :
    (convertRelease sampleRelease).Artifacts = ["a1", "a2"] ∧
    (convertRelease sampleRelease).Env = [("K", "V")] ∧
    newCtRelease (convertRelease sampleRelease) = sampleRelease :=
  ⟨by decide, by decide,
    (release_roundtrip sampleRelease).2.2.2.2.2.2.2.2.2 rfl rfl rfl (by decide)⟩

theorem int32_inInt32 (v : Int) : InInt32 (int32 v) := by
  unfold InInt32 int32
  omega

theorem int32_congruent (v : Int) : (int32 v - v) % 4294967296 = 0 := by
  unfold int32
  omega

theorem int32_eq_iff (v : Int) : int32 v = v ↔ InInt32 v := by
  unfold InInt32 int32
  omega

/-- C20. Integer narrowing is exact only within 32 bits: for every map of per-process
target counts `convertDeploymentProcesses` keeps the keys and maps each count `v` to
`int32 v`, the signed 32-bit number congruent to `v` modulo `2^32`, which equals `v`
exactly when `-2^31 ≤ v < 2^31`; and for every port list
`backConvertPorts (convertPorts ps)` keeps length, order and `Proto` and keeps each port
number exactly when it lies in the signed 32-bit range. -/
theorem narrowing_exact_within_int32 :
    (∀ m : GoMap Int, (GoMap.keys m).Nodup →
      GoMap.keys (convertDeploymentProcesses m) = GoMap.keys m ∧
      ∀ k : String,
        GoMap.find? (convertDeploymentProcesses m) k = (GoMap.find? m k).map int32) ∧
    (∀ v : Int, InInt32 (int32 v) ∧ (int32 v - v) % 4294967296 = 0 ∧
      (int32 v = v ↔ InInt32 v)) ∧
    (∀ ps : List CtPort,
      (backConvertPorts (convertPorts ps)).length = ps.length ∧
      (backConvertPorts (convertPorts ps)).map (fun p => p.Proto)
        = ps.map (fun p => p.Proto) ∧
      (backConvertPorts (convertPorts ps)).map (fun p => p.Port)
        = ps.map (fun p => int32 p.Port) ∧
      ∀ (i : Nat) (p : CtPort), ps[i]? = some p →
        ∃ q, (backConvertPorts (convertPorts ps))[i]? = some q ∧ q.Proto = p.Proto ∧
          (q.Port = p.Port ↔ InInt32 p.Port)) := by
  refine ⟨?_, ?_, ?_⟩
  · intro m h
    have e : convertDeploymentProcesses m = m.map (fun kv => (kv.1, int32 kv.2)) :=
      GoMap.foldl_set_eq_map int32 m h
    rw [e]
    exact ⟨GoMap.keys_mapValues int32 m, fun k => GoMap.find?_mapValues int32 m k⟩
  · intro v
    exact ⟨int32_inInt32 v, int32_congruent v, int32_eq_iff v⟩
  · intro ps
    refine ⟨by simp [backConvertPorts, convertPorts],
      by simp [backConvertPorts, convertPorts, List.map_map, Function.comp_def],
      by simp [backConvertPorts, convertPorts, List.map_map, Function.comp_def], ?_⟩
    intro i p hp
    refine ⟨{ Port := int32 p.Port, Proto := p.Proto,
              Service := backConvertService (convertService p.Service) }, ?_, rfl, ?_⟩
    · simp [backConvertPorts, convertPorts, List.map_map, hp]
    · exact int32_eq_iff p.Port

/-- Witness for C20: a count within the 32-bit range is kept and `2^32 + 1` becomes `1`. -/
theorem narrowing_exact_within_int32_witness :
    (GoMap.keys [("web", (2 : Int)), ("worker", 4294967297)]).Nodup ∧
    convertDeploymentProcesses [("web", 2), ("worker", 4294967297)]
      = [("web", 2), ("worker", 1)] ∧
    GoMap.keys (convertDeploymentProcesses [("web", 2), ("worker", 4294967297)])
      = GoMap.keys [("web", (2 : Int)), ("worker", 4294967297)] :=
  ⟨by decide, by decide,
    (narrowing_exact_within_int32.1 [("web", 2), ("worker", 4294967297)] (by decide)).1⟩

/-! ## Safety of `parseResourceName` -/

theorem parseLoopChecked_eq (parts : List String) (fuel i : Nat) (m : GoMap String)
    (hf : parts.length ≤ i + 2 * fuel + 1) :
    parseLoopChecked parts fuel i m
      = ParseOutcome.returned ParseExit.final (assignAll m (pairsOf (parts.drop i))) := by
  induction fuel generalizing i m with
  | zero =>
    have hc : ¬ ((i : Int) < (parts.length : Int) - 1) := by omega
    have hs : (parts.drop i).length ≤ 1 := by
      simp only [List.length_drop]; omega
    simp only [parseLoopChecked, hc, if_false]
    rw [pairsOf_short _ hs]
    rfl
  | succ n ih =>
    unfold parseLoopChecked
    by_cases h : (i : Int) < (parts.length : Int) - 1
    · have h1 : i + 1 < parts.length := by omega
      have h0 : i < parts.length := by omega
      have hne : i ≠ parts.length := by omega
      simp only [h, hne, if_true, if_false, List.getElem?_eq_getElem h0,
        List.getElem?_eq_getElem h1]
      rw [ih (i + 2) _ (by omega), pairsOf_drop parts i h1]
      rfl
    · have hs : (parts.drop i).length ≤ 1 := by
        simp only [List.length_drop]; omega
      simp only [h, if_false]
      rw [pairsOf_short _ hs]
      rfl

theorem parseLoopChecked_safe (parts : List String) (fuel i : Nat) (m : GoMap String) :
    (∃ idMap, parseLoopChecked parts fuel i m = ParseOutcome.returned ParseExit.final idMap) ∨
      parseLoopChecked parts fuel i m = ParseOutcome.outOfFuel := by
  induction fuel generalizing i m with
  | zero =>
    by_cases h : (i : Int) < (parts.length : Int) - 1
    · right; simp only [parseLoopChecked, h, if_true]
    · left; exact ⟨m, by simp only [parseLoopChecked, h, if_false]⟩
  | succ n ih =>
    unfold parseLoopChecked
    by_cases h : (i : Int) < (parts.length : Int) - 1
    · have h1 : i + 1 < parts.length := by omega
      have h0 : i < parts.length := by omega
      have hne : i ≠ parts.length := by omega
      simp only [h, hne, if_true, if_false, List.getElem?_eq_getElem h0,
        List.getElem?_eq_getElem h1]
      exact ih _ _
    · left; exact ⟨m, by simp only [h, if_false]⟩

theorem GoMap.length_set_le {β : Type} (m : GoMap β) (k : String) (v : β) :
    (m.set k v).length ≤ m.length + 1 := by
  induction m with
  | nil => simp [GoMap.set]
  | cons hd tl ih =>
    obtain ⟨a, b⟩ := hd
    by_cases h : a = k
    · simp [GoMap.set, h]
    · simp only [GoMap.set, h, if_false, List.length_cons]
      omega

theorem length_assignAll_le (ps : List (String × String)) (m : GoMap String) :
    (assignAll m ps).length ≤ m.length + ps.length := by
  induction ps generalizing m with
  | nil => simp [assignAll]
  | cons hd tl ih =>
    have e : assignAll m (hd :: tl) = assignAll (m.set hd.1 hd.2) tl := rfl
    have h1 := ih (m.set hd.1 hd.2)
    have h2 := GoMap.length_set_le m hd.1 hd.2
    rw [e]
    simp only [List.length_cons]
    omega

theorem length_pairsOf : ∀ t : List String, (pairsOf t).length = t.length / 2
  | [] => by simp [pairsOf]
  | [_] => by simp [pairsOf]
  | _ :: _ :: rest => by
    rw [pairsOf, List.length_cons, length_pairsOf rest]
    simp only [List.length_cons]
    omega

/-- C18. `parseResourceName` is total and index-safe: for every input, run with checked
accesses and at least half as many iterations allowed as there are tokens, the loop ends
through the final `return` with the map that `parseResourceName` computes; whatever the
number of iterations allowed, no access is out of range and the guard `i == len(parts)`
is never taken; and the map has at most `n / 2` entries for `n` tokens. The empty string,
a string of slashes and a string with three tokens are instances. -/
theorem parseResourceName_total_index_safe :
    (∀ (name : String) (fuel : Nat), (stringsSplit name).length ≤ 2 * fuel + 1 →
      parseResourceNameChecked fuel name
        = ParseOutcome.returned ParseExit.final (parseResourceName name)) ∧
    (∀ (name : String) (fuel : Nat),
      parseResourceNameChecked fuel name ≠ ParseOutcome.indexOutOfRange ∧
      ∀ idMap, parseResourceNameChecked fuel name
        ≠ ParseOutcome.returned ParseExit.guard idMap) ∧
    (∀ name : String, (parseResourceName name).length ≤ (stringsSplit name).length / 2) ∧
    parseResourceNameChecked 0 "" = ParseOutcome.returned ParseExit.final [] ∧
    parseResourceNameChecked 2 "///" = ParseOutcome.returned ParseExit.final [("", "")] ∧
    parseResourceNameChecked 1 "a/b/c" = ParseOutcome.returned ParseExit.final [("a", "b")] := by
  refine ⟨?_, ?_, ?_, by decide, by decide, by decide⟩
  · intro name fuel hf
    unfold parseResourceNameChecked
    rw [parseLoopChecked_eq _ _ _ _ (by omega), parseResourceName_eq]
    simp
  · intro name fuel
    unfold parseResourceNameChecked
    rcases parseLoopChecked_safe (stringsSplit name) fuel 0 [] with ⟨idMap, h⟩ | h
    · rw [h]
      exact ⟨by simp, by simp⟩
    · rw [h]
      exact ⟨by simp, by simp⟩
  · intro name
    rw [parseResourceName_eq]
    have h1 := length_assignAll_le (pairsOf (stringsSplit name)) []
    rw [length_pairsOf] at h1
    simpa using h1

/-- Witness for C18: `apps/app1/releases` has three tokens, one iteration is enough. -/
theorem parseResourceName_total_index_safe_witness :
    (stringsSplit "apps/app1/releases").length ≤ 2 * 1 + 1 ∧
      parseResourceNameChecked 1 "apps/app1/releases"
        = ParseOutcome.returned ParseExit.final (parseResourceName "apps/app1/releases") :=
  ⟨by decide, parseResourceName_total_index_safe.1 "apps/app1/releases" 1 (by decide)⟩

/-! ## Order, exit and stop rule of the deployment stream -/

theorem pushedNames_stepCalls (marshal : Deployment → Except String (List Nat))
    (ev : Delivered) :
    (pushedEvents (stepCalls marshal ev)).map (fun e => e.Name)
      = ([ev].filter (fun x => (pushedPayload marshal x).isSome)).map eventName := by
  unfold stepCalls pushedEvents pushedPayload
  simp only [eventLoop]
  by_cases ht : ev.event.ObjectType ≠ "deployment"
  · simp [ht, LoopRun.after]
  · have ht2 : ev.event.ObjectType = "deployment" := by simpa using ht
    simp only [ht, if_false]
    cases hg : ev.getDeployment with
    | error e => simp [LoopRun.after, ht2, hg]
    | ok d =>
      simp only
      cases hm : marshal (convertDeployment d) with
      | error e => simp [LoopRun.after, ht2, hg, hm]
      | ok b =>
        by_cases hs : d.Status = "complete" ∨ d.Status = "failed" <;>
          simp [hs, LoopRun.after, ht2, hg, hm, wireEvent, eventName]

theorem fetchedIDs_stepCalls (marshal : Deployment → Except String (List Nat))
    (ev : Delivered) :
    fetchedIDs (stepCalls marshal ev) = (deploymentEvents [ev]).map (fun x => x.event.ObjectID) := by
  unfold stepCalls fetchedIDs deploymentEvents
  simp only [eventLoop]
  by_cases ht : ev.event.ObjectType ≠ "deployment"
  · simp [ht, LoopRun.after]
  · have ht2 : ev.event.ObjectType = "deployment" := by simpa using ht
    simp only [ht, if_false]
    cases hg : ev.getDeployment with
    | error e => simp [LoopRun.after, ht2]
    | ok d =>
      simp only
      cases hm : marshal (convertDeployment d) with
      | error e => simp [LoopRun.after, ht2]
      | ok b =>
        by_cases hs : d.Status = "complete" ∨ d.Status = "failed" <;>
          simp [hs, LoopRun.after, ht2]

theorem pushedPayload_deployment (marshal : Deployment → Except String (List Nat))
    (ev : Delivered) (h : (pushedPayload marshal ev).isSome = true) :
    ev.event.ObjectType = "deployment" := by
  unfold pushedPayload at h
  by_cases ht : ev.event.ObjectType ≠ "deployment"
  · simp [ht] at h
  · simpa using ht

theorem pushedEvents_append (cs ds : List Call) :
    pushedEvents (cs ++ ds) = pushedEvents cs ++ pushedEvents ds := by
  simp [pushedEvents]

theorem fetchedIDs_append (cs ds : List Call) :
    fetchedIDs (cs ++ ds) = fetchedIDs cs ++ fetchedIDs ds := by
  simp [fetchedIDs]

theorem deploymentEvents_cons (ev : Delivered) (rest : List Delivered) :
    deploymentEvents (ev :: rest) = deploymentEvents [ev] ++ deploymentEvents rest := by
  unfold deploymentEvents
  rw [← List.filter_append]
  rfl

theorem pushedFilter_sublist (marshal : Deployment → Except String (List Nat))
    (feed : List Delivered) :
    List.Sublist (feed.filter (fun x => (pushedPayload marshal x).isSome))
      (deploymentEvents feed) := by
  induction feed with
  | nil => exact List.Sublist.slnil
  | cons hd tl ih =>
    unfold deploymentEvents at ih ⊢
    by_cases hp : (pushedPayload marshal hd).isSome = true
    · have ht := pushedPayload_deployment marshal hd hp
      simp only [List.filter_cons, hp, ht, decide_True, if_true]
      exact ih.cons₂ hd
    · by_cases ht : hd.event.ObjectType = "deployment"
      · simp only [List.filter_cons, hp, ht, decide_True, if_true, if_false]
        exact ih.cons hd
      · simp only [List.filter_cons, hp, ht, decide_False, if_false]
        exact ih

theorem eventLoop_cases (marshal : Deployment → Except String (List Nat)) (ev : Delivered)
    (rest : List Delivered) :
    (eventLoop marshal (ev :: rest)).calls
        = stepCalls marshal ev ++ (eventLoop marshal rest).calls ∨
      (eventLoop marshal (ev :: rest)).calls = stepCalls marshal ev := by
  cases h : endsStream marshal ev with
  | false =>
    left
    rw [eventLoop_continue marshal ev rest h]
    rfl
  | true =>
    right
    rw [(eventLoop_stop marshal ev rest h).1]

theorem eventLoop_pushed_sublist (marshal : Deployment → Except String (List Nat))
    (feed : List Delivered) :
    List.Sublist ((pushedEvents (eventLoop marshal feed).calls).map (fun e => e.Name))
      ((feed.filter (fun x => (pushedPayload marshal x).isSome)).map eventName) := by
  induction feed with
  | nil => simp [eventLoop, pushedEvents]
  | cons hd tl ih =>
    have hf : (hd :: tl).filter (fun x => (pushedPayload marshal x).isSome)
        = [hd].filter (fun x => (pushedPayload marshal x).isSome)
          ++ tl.filter (fun x => (pushedPayload marshal x).isSome) := by
      rw [← List.filter_append]; rfl
    rw [hf, List.map_append, ← pushedNames_stepCalls]
    rcases eventLoop_cases marshal hd tl with h | h
    · rw [h, pushedEvents_append, List.map_append]
      exact List.Sublist.append (List.Sublist.refl _) ih
    · rw [h]
      exact List.sublist_append_left _ _

theorem eventLoop_fetched_sublist (marshal : Deployment → Except String (List Nat))
    (feed : List Delivered) :
    List.Sublist (fetchedIDs (eventLoop marshal feed).calls)
      ((deploymentEvents feed).map (fun x => x.event.ObjectID)) := by
  induction feed with
  | nil => simp [eventLoop, fetchedIDs]
  | cons hd tl ih =>
    rw [deploymentEvents_cons, List.map_append, ← fetchedIDs_stepCalls marshal]
    rcases eventLoop_cases marshal hd tl with h | h
    · rw [h, fetchedIDs_append]
      exact List.Sublist.append (List.Sublist.refl _) ih
    · rw [h]
      exact List.sublist_append_left _ _

theorem eventLoop_received_initial (marshal : Deployment → Except String (List Nat))
    (feed : List Delivered) :
    ∃ rest, feed.map (fun x => x.event)
      = receivedEvents (eventLoop marshal feed).calls ++ rest := by
  induction feed with
  | nil => exact ⟨[], by simp [eventLoop, receivedEvents]⟩
  | cons hd tl ih =>
    obtain ⟨rest, hr⟩ := ih
    rcases eventLoop_cases marshal hd tl with h | h
    · refine ⟨rest, ?_⟩
      rw [h, receivedEvents_append, receivedEvents_stepCalls, List.map_cons, hr]
      rfl
    · refine ⟨tl.map (fun x => x.event), ?_⟩
      rw [h, receivedEvents_stepCalls]
      rfl

theorem pushedEvents_createDeployment (s : Backend) (req : CreateDeploymentRequest) :
    pushedEvents (CreateDeployment s req).calls = [] ∨
      pushedEvents (CreateDeployment s req).calls
        = pushedEvents (eventLoop s.marshal s.feed).calls := by
  unfold CreateDeployment
  simp only
  split
  · left; simp [pushedEvents]
  · split
    · left; simp [pushedEvents]
    · right; split <;> simp [pushedEvents]

/-- C16. Stream ordering and filtering in `CreateDeployment`: for every delivered
sequence, the names `events/id` of the pushed events are, in delivery order, among the
names of the delivered events of object type `deployment`; the re-fetched object IDs are
in delivery order among those of the delivered `deployment` events; no name is pushed
more often than it was delivered; and the events are received in the order delivered,
from the first on without a gap. -/
theorem createDeployment_stream_order (s : Backend) (req : CreateDeploymentRequest) :
    List.Sublist ((pushedEvents (eventLoop s.marshal s.feed).calls).map (fun e => e.Name))
      ((deploymentEvents s.feed).map eventName) ∧
    List.Sublist (fetchedIDs (eventLoop s.marshal s.feed).calls)
      ((deploymentEvents s.feed).map (fun x => x.event.ObjectID)) ∧
    (∀ n : String,
      ((pushedEvents (eventLoop s.marshal s.feed).calls).map (fun e => e.Name)).count n
        ≤ (s.feed.map eventName).count n) ∧
    (∃ rest, s.feed.map (fun x => x.event)
      = receivedEvents (eventLoop s.marshal s.feed).calls ++ rest) ∧
    List.Sublist ((pushedEvents (CreateDeployment s req).calls).map (fun e => e.Name))
      ((deploymentEvents s.feed).map eventName) := by
  have h1 : List.Sublist
      ((pushedEvents (eventLoop s.marshal s.feed).calls).map (fun e => e.Name))
      ((deploymentEvents s.feed).map eventName) :=
    (eventLoop_pushed_sublist s.marshal s.feed).trans
      ((pushedFilter_sublist s.marshal s.feed).map eventName)
  have h2 : List.Sublist ((deploymentEvents s.feed).map eventName) (s.feed.map eventName) :=
    (List.filter_sublist _).map eventName
  refine ⟨h1, eventLoop_fetched_sublist s.marshal s.feed, ?_,
    eventLoop_received_initial s.marshal s.feed, ?_⟩
  · intro n
    exact (h1.trans h2).count_le n
  · rcases pushedEvents_createDeployment s req with h | h
    · rw [h]
      simp
    · rw [h]
      exact h1

/-- C17. Stream exit and final error in `CreateDeployment`, once the deployment is
created: if establishing the subscription fails, that error is returned after the two
calls `CreateDeployment` and `StreamEvents`, nothing is pushed and nothing is closed;
otherwise, whatever the delivered sequence and however the loop ends, the subscription is
closed exactly once, after the loop, and the result is the error of `Close` if there is
one, else the error recorded by the subscription (nil if none). -/
theorem createDeployment_exit (s : Backend) (req : CreateDeploymentRequest)
    (d : CtDeployment)
    (hc : s.createDeployment ((parseResourceName req.Parent).index "apps")
      ((parseResourceName req.Release).index "releases") = Except.ok d) :
    (∀ e : String, s.streamEvents (subscriptionOptions d) = some e →
      CreateDeployment s req
        = { calls := [Call.createDeployment ((parseResourceName req.Parent).index "apps")
                        ((parseResourceName req.Release).index "releases"),
                      Call.streamEvents (subscriptionOptions d)],
            result := some e } ∧
      pushedEvents (CreateDeployment s req).calls = [] ∧
      (CreateDeployment s req).calls.count Call.close = 0) ∧
    (s.streamEvents (subscriptionOptions d) = none →
      (CreateDeployment s req).calls.count Call.close = 1 ∧
      (∃ tail, (CreateDeployment s req).calls
        = [Call.createDeployment ((parseResourceName req.Parent).index "apps")
              ((parseResourceName req.Release).index "releases"),
            Call.streamEvents (subscriptionOptions d)]
          ++ (eventLoop s.marshal s.feed).calls ++ Call.close :: tail ∧
        pushedEvents tail = []) ∧
      (CreateDeployment s req).result
        = (match s.close with
           | some e => some e
           | none => s.err)) := by
  unfold subscriptionOptions
  constructor
  · intro e hs
    have hrun : CreateDeployment s req
        = { calls := [Call.createDeployment ((parseResourceName req.Parent).index "apps")
                        ((parseResourceName req.Release).index "releases"),
                      Call.streamEvents (subscriptionOptions d)],
            result := some e } := by
      simp only [CreateDeployment, hc, hs, subscriptionOptions]
    refine ⟨hrun, ?_, ?_⟩
    · rw [hrun]; simp [pushedEvents]
    · rw [hrun]; simp [List.count_cons]
  · intro hs
    have hno := eventLoop_no_close s.marshal s.feed
    have hcount : List.count Call.close (eventLoop s.marshal s.feed).calls = 0 :=
      List.count_eq_zero.mpr hno
    simp only [CreateDeployment, hc, hs]
    cases hcl : s.close with
    | some e =>
      refine ⟨?_, ⟨[], by simp, by simp [pushedEvents]⟩, rfl⟩
      simp [List.count_append, hcount, List.count_cons]
    | none =>
      refine ⟨?_, ⟨[Call.err], by simp, by simp [pushedEvents]⟩, rfl⟩
      simp [List.count_append, hcount, List.count_cons]

/-- Witness for C17: a backend that creates the deployment and fails to subscribe. -/
theorem createDeployment_exit_witness :
    unsubscribedBackend.createDeployment ((parseResourceName sampleRequest.Parent).index "apps")
        ((parseResourceName sampleRequest.Release).index "releases")
      = Except.ok (sampleDeployment "pending") ∧
    unsubscribedBackend.streamEvents (subscriptionOptions (sampleDeployment "pending"))
      = some "stream unavailable" ∧
    pushedEvents (CreateDeployment unsubscribedBackend sampleRequest).calls = [] ∧
    (CreateDeployment unsubscribedBackend sampleRequest).calls.count Call.close = 0 :=
  ⟨rfl, rfl,
    ((createDeployment_exit unsubscribedBackend sampleRequest (sampleDeployment "pending")
      rfl).1 "stream unavailable" rfl).2⟩

theorem timeUnix_wraps :
    timeUnix (-9223372036854775808) (-1)
      = { sec := 9223372036854775807, nsec := 999999999 } := by
  decide

theorem convertRelease_name (r : CtRelease) :
    (convertRelease r).Name = formatResourceName [("apps", r.AppID), ("releases", r.ID)] := by
  simp only [formatResourceName_two, convertRelease]
  apply String.ext
  simp

theorem parse_pair_two (k1 v1 k2 v2 : String) (hk : k1 ≠ k2) (h1 : IsToken k1)
    (h2 : IsToken v1) (h3 : IsToken k2) (h4 : IsToken v2) :
    parseResourceName (formatResourceName [(k1, v1), (k2, v2)]) = [(k1, v1), (k2, v2)] := by
  apply parseResourceName_format_eq
  refine ⟨by simp [hk], ?_⟩
  intro p hp
  simp only [List.mem_cons, List.mem_singleton, List.not_mem_nil, or_false] at hp
  rcases hp with rfl | rfl
  · exact ⟨h1, h2⟩
  · exact ⟨h3, h4⟩

/-- C1 as stated fails for the names `convertApp` builds: the pair (`apps`, `..`) is
well-formed, but `path.Join("apps", "..")` is `.`, which parses to the empty mapping. -/
theorem convertApp_name_parse_counterexample :
    ¬ (∀ a : CtApp, WellFormedPairs [("apps", a.ID)] →
        parseResourceName (convertApp a).Name = [("apps", a.ID)]) := by
  intro h
  have := h dotDotApp (by decide)
  revert this
  decide

/-- C1, amended. Parse undoes Format: for every well-formed list of (kind, identifier)
pairs (kinds pairwise distinct, every kind and identifier non-empty and free of `/`),
`parseResourceName` applied to the pairs joined with `/` in declaration order returns
exactly the mapping of those pairs. `convertRelease` and `convertDeployment` build their
names as such joins, so these parse back to their pairs whenever the identifiers are
name tokens; `convertApp` builds its names with `path.Join`, and they are such joins and
parse back to their pairs when in addition the identifiers are not `.` or `..`. -/
theorem parse_undoes_format :
    (∀ ps : List (String × String), WellFormedPairs ps →
      parseResourceName (formatResourceName ps) = ps ∧
      ∀ k v : String,
        (parseResourceName (formatResourceName ps)).find? k = some v ↔ (k, v) ∈ ps) ∧
    (∀ r : CtRelease,
      (convertRelease r).Name = formatResourceName [("apps", r.AppID), ("releases", r.ID)] ∧
      (IsToken r.AppID → IsToken r.ID →
        parseResourceName (convertRelease r).Name = [("apps", r.AppID), ("releases", r.ID)])) ∧
    (∀ d : CtDeployment,
      (convertDeployment d).Name
        = formatResourceName [("apps", d.AppID), ("deployments", d.ID)] ∧
      (convertDeployment d).OldRelease
        = formatResourceName [("apps", d.AppID), ("releases", d.OldReleaseID)] ∧
      (convertDeployment d).NewRelease
        = formatResourceName [("apps", d.AppID), ("releases", d.NewReleaseID)] ∧
      (IsToken d.AppID → IsToken d.ID →
        parseResourceName (convertDeployment d).Name
          = [("apps", d.AppID), ("deployments", d.ID)]) ∧
      (IsToken d.AppID → IsToken d.OldReleaseID →
        parseResourceName (convertDeployment d).OldRelease
          = [("apps", d.AppID), ("releases", d.OldReleaseID)]) ∧
      (IsToken d.AppID → IsToken d.NewReleaseID →
        parseResourceName (convertDeployment d).NewRelease
          = [("apps", d.AppID), ("releases", d.NewReleaseID)])) ∧
    (∀ a : CtApp, IsSegment a.ID →
      (convertApp a).Name = formatResourceName [("apps", a.ID)] ∧
      parseResourceName (convertApp a).Name = [("apps", a.ID)]) ∧
    (∀ a : CtApp, IsSegment a.ID → IsSegment a.ReleaseID →
      (convertApp a).Release = formatResourceName [("apps", a.ID), ("releases", a.ReleaseID)] ∧
      parseResourceName (convertApp a).Release
        = [("apps", a.ID), ("releases", a.ReleaseID)]) := by
  have tApps : IsToken "apps" := isSegment_apps.1
  have tReleases : IsToken "releases" := isSegment_releases.1
  have tDeployments : IsToken "deployments" := by decide
  have n1 : ("apps" : String) ≠ "releases" := by decide
  have n2 : ("apps" : String) ≠ "deployments" := by decide
  refine ⟨?_, ?_, ?_, ?_, ?_⟩
  · intro ps h
    have e := parseResourceName_format_eq ps h
    refine ⟨e, ?_⟩
    intro k v
    rw [e]
    exact GoMap.find?_eq_some_of_nodup ps (by simpa [GoMap.keys] using h.1) k v
  · intro r
    refine ⟨convertRelease_name r, ?_⟩
    intro h1 h2
    rw [convertRelease_name r]
    exact parse_pair_two _ _ _ _ n1 tApps h1 tReleases h2
  · intro d
    obtain ⟨e1, e2, e3⟩ := convertDeployment_names d
    refine ⟨e1, e2, e3, ?_, ?_, ?_⟩
    · intro h1 h2
      rw [e1]
      exact parse_pair_two _ _ _ _ n2 tApps h1 tDeployments h2
    · intro h1 h2
      rw [e2]
      exact parse_pair_two _ _ _ _ n1 tApps h1 tReleases h2
    · intro h1 h2
      rw [e3]
      exact parse_pair_two _ _ _ _ n1 tApps h1 tReleases h2
  · intro a h
    have e : (convertApp a).Name = slashJoin ["apps", a.ID] := pathJoin_app a.ID h
    refine ⟨e, ?_⟩
    rw [e]
    exact parse_app a.ID h
  · intro a h hr
    have e : (convertApp a).Release = slashJoin ["apps", a.ID, "releases", a.ReleaseID] :=
      pathJoin_release a.ID a.ReleaseID h hr
    refine ⟨e, ?_⟩
    rw [e]
    exact parse_release a.ID a.ReleaseID h hr

/-- Witness for C1: the pairs of `apps/app1/releases/rel1`, and the names of `sampleApp`. -/
theorem parse_undoes_format_witness :
    WellFormedPairs [("apps", "app1"), ("releases", "rel1")] ∧
    parseResourceName (formatResourceName [("apps", "app1"), ("releases", "rel1")])
      = [("apps", "app1"), ("releases", "rel1")] ∧
    IsSegment sampleApp.ID ∧ IsSegment sampleApp.ReleaseID ∧
    parseResourceName (convertApp sampleApp).Name = [("apps", "a1")] ∧
    parseResourceName (convertApp sampleApp).Release = [("apps", "a1"), ("releases", "r1")] :=
  ⟨by decide,
    (parse_undoes_format.1 [("apps", "app1"), ("releases", "rel1")] (by decide)).1,
    by decide, by decide,
    (parse_undoes_format.2.2.2.1 sampleApp (by decide)).2,
    (parse_undoes_format.2.2.2.2 sampleApp (by decide) (by decide)).2⟩

end Flynn
